import Mathlib

/-!
Verification development for the `django_database_translation` package.

The package keeps four tables consistent — `Language`, `Field`, `Item`,
`Translation` — via post-save / post-delete signal callbacks
(`signals.py`), a manager that blocks `bulk_create` (`managers.py`),
read-side helpers (`utils.py`) and a template tag (`ddt_tags.py`).

This file embeds those operations shallowly: rows become structures, the
database becomes an explicit `DBState`, each Django-level operation
(`objects.create`, `save`, `delete`, the signal callbacks they trigger)
becomes a function `DBState → Except DBErr DBState`, faithful to the Python
control flow.  Machine-level pk allocation is modelled with explicit
`next…Id` counters; a raised Python exception becomes an `Except.error`.
-/

set_option linter.unusedVariables false

namespace DDT

/-- Python exceptions raised by the package, as an error enumeration. -/
inductive DBErr where
  | notImplementedError
  | integrityError
  | doesNotExist
  | multipleObjectsReturned
  | typeError
  | runtimeError
  | keyError
deriving DecidableEq, Repr

/-- A row of `ddt_languages` (models.py, `class Language`). -/
structure Language where
  id : Nat
  name : String
  iso2 : String
  iso3 : String
  django_language_name : String
deriving DecidableEq, Repr

/-- A row of `ddt_fields` (models.py, `class Field`); `content_type` is the
ContentType pk of the owning model. -/
structure Field where
  id : Nat
  content_type : Nat
  name : String
deriving DecidableEq, Repr

/-- A row of `ddt_items` (models.py, `class Item`). -/
structure Item where
  id : Nat
  field : Nat
  object_id : Nat
  content_type : Nat
deriving DecidableEq, Repr

/-- A row of `ddt_translations` (models.py, `class Translation`). -/
structure Translation where
  id : Nat
  language : Nat
  item : Nat
  text : String
deriving DecidableEq, Repr

/-- A row of a user model inheriting `TranslatedModel`: its pk, its
ContentType pk, and its `TranslatedField` columns (attribute name ↦ Item pk;
an absent key is a NULL pointer). -/
structure Record where
  id : Nat
  content_type : Nat
  attrs : List (String × Nat)
deriving DecidableEq, Repr

/-- The whole relational store, with pk sequences. -/
structure DBState where
  languages : List Language
  fields : List Field
  items : List Item
  translations : List Translation
  records : List Record
  nextLanguageId : Nat
  nextFieldId : Nat
  nextItemId : Nat
  nextTranslationId : Nat
  nextRecordId : Nat
deriving DecidableEq, Repr

/-- Number of elements of `l` satisfying `p`; used to state uniqueness and
"exactly one row" properties. -/
def cnt {α : Type} (l : List α) (p : α → Bool) : Nat :=
  (l.filter p).length

/-- Python's `str.upper()` (ASCII, as used on the 2/3-letter ISO codes). -/
def pyUpper (s : String) : String := ⟨s.data.map Char.toUpper⟩

instance {ε α : Type} [DecidableEq ε] [DecidableEq α] : DecidableEq (Except ε α) :=
  fun a b =>
    match a, b with
    | .ok x, .ok y =>
        if h : x = y then .isTrue (by rw [h]) else .isFalse (by intro hc; cases hc; exact h rfl)
    | .error x, .error y =>
        if h : x = y then .isTrue (by rw [h]) else .isFalse (by intro hc; cases hc; exact h rfl)
    | .ok _, .error _ => .isFalse (by intro hc; cases hc)
    | .error _, .ok _ => .isFalse (by intro hc; cases hc)

/-- Python `getattr(record, name)` for a `TranslatedField` column:
the Item pk stored under `name`, or `none` for NULL. -/
def getAttr : List (String × Nat) → String → Option Nat
  | [], _ => none
  | (k, v) :: rest, n => if k == n then some v else getAttr rest n

/-- Python `setattr(record, name, item)` on a `TranslatedField` column. -/
def setAttr : List (String × Nat) → String → Nat → List (String × Nat)
  | [], n, v => [(n, v)]
  | (k, w) :: rest, n, v => if k == n then (n, v) :: rest else (k, w) :: setAttr rest n v

/-- `obj.save()` on an already-persisted record after a `setattr`: persists
the updated pointer attribute of the record with pk `rid`.  (The post-save
signal fires with `created=False`, which every callback ignores.) -/
def record_save (s : DBState) (rid : Nat) (attr : String) (v : Nat) : DBState :=
  { s with records := s.records.map (fun r =>
      if r.id == rid then { r with attrs := setAttr r.attrs attr v } else r) }

/-- `managers.py`, `NoBulkCreateManager.bulk_create`: raises
`NotImplementedError` unconditionally, touching no row. -/
def NoBulkCreateManager_bulk_create (α : Type) (s : DBState) (objs : List α) :
    Except DBErr DBState :=
  .error .notImplementedError

/-- `Item.objects.bulk_create`: `Item` declares
`objects = NoBulkCreateManager()`, so this always raises.  Each intended row
is a `(field, object_id, content_type)` triple. -/
def Item_objects_bulk_create (s : DBState) (objs : List (Nat × Nat × Nat)) :
    Except DBErr DBState :=
  NoBulkCreateManager_bulk_create (Nat × Nat × Nat) s objs

/-- True iff the batch itself repeats a `(language, item)` pair. -/
def hasDupPair : List (Nat × Nat) → Bool
  | [] => false
  | p :: rest => rest.contains p || hasDupPair rest

/-- Appends one `Translation` row per `(language, item)` pair, with empty
text and sequential pks — the row-writing part of a successful
`Translation.objects.bulk_create`. -/
def insertTranslations (s : DBState) : List (Nat × Nat) → DBState
  | [] => s
  | (lid, iid) :: rest =>
      insertTranslations
        { s with
            translations := s.translations ++
              [{ id := s.nextTranslationId, language := lid, item := iid, text := "" }],
            nextTranslationId := s.nextTranslationId + 1 } rest

/-- `Translation.objects.bulk_create`: `Translation` has no custom manager,
so the default manager performs a single batched INSERT; the
`unique_together ["language", "item"]` constraint rejects the whole batch
(IntegrityError) if any pair already exists or is repeated in the batch,
and the `null=False` foreign keys `language` and `item` (both declared via
`ForeignKeyCascade`) reject any row referencing a Language or Item pk that
does not exist. -/
def Translation_objects_bulk_create (s : DBState) (objs : List (Nat × Nat)) :
    Except DBErr DBState :=
  if (objs.any (fun p => s.translations.any (fun t => t.language == p.1 && t.item == p.2))
      || hasDupPair objs)
      || objs.any (fun p => !(s.languages.any (fun l => l.id == p.1))
                    || !(s.items.any (fun i => i.id == p.2))) then
    .error .integrityError
  else
    .ok (insertTranslations s objs)

/-- `signals.py`, `create_translations_from_item` (post-save on `Item`):
for a newly created Item, bulk-creates one empty Translation per existing
Language; a plain re-save (`created=False`) does nothing. -/
def create_translations_from_item (s : DBState) (inst : Item) (created : Bool) :
    Except DBErr DBState :=
  if created then
    let languages := s.languages
    if languages.length > 0 then
      Translation_objects_bulk_create s (languages.map (fun language => (language.id, inst.id)))
    else .ok s
  else .ok s

/-- `signals.py`, `create_translations_from_language` (post-save on
`Language`): for a newly created Language, bulk-creates one empty
Translation per existing Item. -/
def create_translations_from_language (s : DBState) (inst : Language) (created : Bool) :
    Except DBErr DBState :=
  if created then
    let items := s.items
    if items.length > 0 then
      Translation_objects_bulk_create s (items.map (fun item => (inst.id, item.id)))
    else .ok s
  else .ok s

/-- `Item.objects.create(field=…, object_id=…, content_type=…)`: the
`unique_together ['field', 'object_id']` constraint rejects duplicates;
on success the row is inserted and the post-save signal fires with
`created=True`, fanning out Translations. -/
def Item_objects_create (s : DBState) (fieldId objectId contentType : Nat) :
    Except DBErr (Item × DBState) :=
  if s.items.any (fun i => i.field == fieldId && i.object_id == objectId) then
    .error .integrityError
  else
    let item : Item :=
      { id := s.nextItemId, field := fieldId, object_id := objectId, content_type := contentType }
    let s1 : DBState := { s with items := s.items ++ [item], nextItemId := s.nextItemId + 1 }
    match create_translations_from_item s1 item true with
    | .ok s2 => .ok (item, s2)
    | .error e => .error e

/-- The operator-supplied attributes of a new `Language` (its `save`
normalizes the ISO codes before writing). -/
structure LanguageData where
  name : String
  iso2 : String
  iso3 : String
  django_language_name : String
deriving DecidableEq, Repr

/-- `Language(…).save()` on a new Language: uppercases `iso2`/`iso3`
(models.py, `Language.save`), inserts the row subject to the four `unique`
column constraints, then the post-save signal fans out Translations. -/
def Language_save (s : DBState) (d : LanguageData) : Except DBErr (Language × DBState) :=
  let iso2 := pyUpper d.iso2
  let iso3 := pyUpper d.iso3
  if s.languages.any (fun l => l.name == d.name || l.iso2 == iso2 || l.iso3 == iso3
      || l.django_language_name == d.django_language_name) then
    .error .integrityError
  else
    let language : Language :=
      { id := s.nextLanguageId, name := d.name, iso2 := iso2, iso3 := iso3,
        django_language_name := d.django_language_name }
    let s1 : DBState :=
      { s with languages := s.languages ++ [language], nextLanguageId := s.nextLanguageId + 1 }
    match create_translations_from_language s1 language true with
    | .ok s2 => .ok (language, s2)
    | .error e => .error e

/-- The `for obj in objects:` loop of `signals.py`,
`create_items_from_field`: per object, create the Item, `setattr` the new
Item onto the object's pointer attribute, and save the object. -/
def create_items_loop (inst : Field) : List Record → DBState → Except DBErr DBState
  | [], st => .ok st
  | obj :: objs, st =>
      match Item_objects_create st inst.id obj.id inst.content_type with
      | .error e => .error e
      | .ok (item, st1) => create_items_loop inst objs (record_save st1 obj.id inst.name item.id)

/-- `signals.py`, `create_items_from_field` (post-save on `Field`): for a
newly created Field, loops over every existing object of the Field's model
creating one Item each and writing it back; `created=False` does nothing. -/
def create_items_from_field (s : DBState) (inst : Field) (created : Bool) :
    Except DBErr DBState :=
  if created then
    create_items_loop inst (s.records.filter (fun r => r.content_type == inst.content_type)) s
  else .ok s

/-- `Field.objects.create(content_type=…, name=…)`: rejected on the
`unique_together ['content_type', 'name']` constraint, otherwise inserted,
after which the post-save signal fans out Items. -/
def Field_objects_create (s : DBState) (contentType : Nat) (name : String) :
    Except DBErr (Field × DBState) :=
  if s.fields.any (fun f => f.content_type == contentType && f.name == name) then
    .error .integrityError
  else
    let field : Field := { id := s.nextFieldId, content_type := contentType, name := name }
    let s1 : DBState := { s with fields := s.fields ++ [field], nextFieldId := s.nextFieldId + 1 }
    match create_items_from_field s1 field true with
    | .ok s2 => .ok (field, s2)
    | .error e => .error e

/-- `models.py`, `TranslatedModel.get_translated_fields`: all `Field` rows
registered against the record's ContentType. -/
def get_translated_fields (s : DBState) (inst : Record) : List Field :=
  s.fields.filter (fun f => f.content_type == inst.content_type)

/-- The `for field in fields:` loop of `signals.py`,
`create_translated_items`: per registered Field, create the Item, `setattr`
it onto the record, and save the record. -/
def create_translated_items_loop (inst : Record) : List Field → DBState → Except DBErr DBState
  | [], st => .ok st
  | f :: fs, st =>
      match Item_objects_create st f.id inst.id inst.content_type with
      | .error e => .error e
      | .ok (item, st1) =>
          create_translated_items_loop inst fs (record_save st1 inst.id f.name item.id)

/-- `signals.py`, `create_translated_items` (post-save on every translated
model): on creation of a record, creates one Item per registered Field and
writes each back; with zero registered Fields it raises
`RuntimeError("… has no entry in the Field table")`. -/
def create_translated_items (s : DBState) (inst : Record) (created : Bool) :
    Except DBErr DBState :=
  if created then
    let fields := get_translated_fields s inst
    if fields.length > 0 then
      create_translated_items_loop inst fields s
    else
      .error .runtimeError
  else .ok s

/-- Creation of a record of a translated model: the host framework inserts
the row (fresh pk, all pointer columns NULL), then the post-save signal
runs `create_translated_items` with `created=True`. -/
def Record_objects_create (s : DBState) (contentType : Nat) :
    Except DBErr (Record × DBState) :=
  let record : Record := { id := s.nextRecordId, content_type := contentType, attrs := [] }
  let s1 : DBState := { s with records := s.records ++ [record],
                               nextRecordId := s.nextRecordId + 1 }
  match create_translated_items s1 record true with
  | .ok s2 => .ok (record, s2)
  | .error e => .error e

/-- `Item.objects.filter(pk__in=ids).delete()`:  removes the matching Item
rows, and — via the `ForeignKeyCascade` (`on_delete=CASCADE`, fields.py) on
`Translation.item` — every Translation row referencing a removed Item. -/
def Item_queryset_delete (s : DBState) (ids : List Nat) : DBState :=
  let doomed := (s.items.filter (fun i => ids.contains i.id)).map (fun i => i.id)
  { s with items := s.items.filter (fun i => !(ids.contains i.id)),
           translations := s.translations.filter (fun t => !(doomed.contains t.item)) }

/-- `signals.py`, `delete_translated_items` (post-delete on every translated
model): resolves each registered Field through the deleted record's pointer
attributes, drops the NULL ones, and deletes the pointed-to Items (their
Translations cascade). -/
def delete_translated_items (s : DBState) (inst : Record) : DBState :=
  let fields := get_translated_fields s inst
  if fields.length > 0 then
    let items := fields.map (fun f => getAttr inst.attrs f.name)
    let filtered_items := items.filterMap (fun x => x)
    if filtered_items.length > 0 then
      Item_queryset_delete s filtered_items
    else s
  else s

/-- Deletion of a record of a translated model: the framework removes the
row, then the post-delete signal runs `delete_translated_items` with the
deleted instance. -/
def Record_delete (s : DBState) (inst : Record) : DBState :=
  let s1 : DBState := { s with records := s.records.filter (fun r => !(r.id == inst.id)) }
  delete_translated_items s1 inst

/-- `Translation.objects.get(language=…, item_id=…)`: Django's strict `get`
raises `DoesNotExist` on zero matches and `MultipleObjectsReturned` on
several. -/
def Translation_objects_get (s : DBState) (languageId itemId : Nat) : Except DBErr Translation :=
  match s.translations.filter (fun t => t.language == languageId && t.item == itemId) with
  | [] => .error .doesNotExist
  | [t] => .ok t
  | _ :: _ :: _ => .error .multipleObjectsReturned

/-- `utils.py`, `get_translation`: the defaulting lookup — returns the
Translation text, converting `DoesNotExist` into `""`. -/
def get_translation (s : DBState) (language : Language) (item_id : Nat) : Except DBErr String :=
  match Translation_objects_get s language.id item_id with
  | .ok entry => .ok entry.text
  | .error .doesNotExist => .ok ""
  | .error e => .error e

/-- `Language.objects.get(id=pk)`. -/
def Language_objects_get_by_id (s : DBState) (pk : Nat) : Except DBErr Language :=
  match s.languages.filter (fun l => l.id == pk) with
  | [] => .error .doesNotExist
  | [l] => .ok l
  | _ :: _ :: _ => .error .multipleObjectsReturned

/-- `Language.objects.get(django_language_name=…)`. -/
def Language_objects_get_by_django_name (s : DBState) (name : String) : Except DBErr Language :=
  match s.languages.filter (fun l => l.django_language_name == name) with
  | [] => .error .doesNotExist
  | [l] => .ok l
  | _ :: _ :: _ => .error .multipleObjectsReturned

/-- The session slice relevant here: `request.session[LANGUAGE_SESSION_KEY]`. -/
structure Session where
  language_name : Option String
deriving DecidableEq, Repr

/-- A Django request together with the thread-local language set by
`django.utils.translation.activate`. -/
structure Request where
  session : Session
  active_language : Option String
deriving DecidableEq, Repr

/-- `utils.py`, `update_user_language`: raises `TypeError` when neither
`language` nor `language_id` is given; otherwise resolves the Language
(fetching by id only when no instance was passed), activates it and stores
it in the session. -/
def update_user_language (s : DBState) (request : Request)
    (language : Option Language) (language_id : Option Nat) : Except DBErr Request :=
  if language.isNone && language_id.isNone then
    .error .typeError
  else
    match language, language_id with
    | some l, _ =>
        .ok { request with active_language := some l.django_language_name,
                           session := { language_name := some l.django_language_name } }
    | none, some lid =>
        match Language_objects_get_by_id s lid with
        | .ok l =>
            .ok { request with active_language := some l.django_language_name,
                               session := { language_name := some l.django_language_name } }
        | .error e => .error e
    | none, none => .error .typeError

/-- A value handed to the `db_trans` template tag: an `Item` instance or any
other template value. -/
inductive TemplateValue where
  | item (it : Item)
  | str (s : String)
  | num (n : Int)
deriving DecidableEq, Repr

/-- `templatetags/ddt_tags.py`, `db_trans`: for an `Item` argument, reads
the session language (KeyError if unset), fetches the Language and the
Translation with strict `get`s and returns the text; any non-`Item`
argument is returned unchanged. -/
def db_trans (s : DBState) (context : Request) (field : TemplateValue) :
    Except DBErr TemplateValue :=
  match field with
  | .item it =>
      match context.session.language_name with
      | none => .error .keyError
      | some language_name =>
          match Language_objects_get_by_django_name s language_name with
          | .error e => .error e
          | .ok language =>
              match Translation_objects_get s language.id it.id with
              | .error e => .error e
              | .ok translation => .ok (.str translation.text)
  | v => .ok v

/-- The operator-level events that drive the synchronizer. -/
inductive Cmd where
  | createLanguage (d : LanguageData)
  | createField (contentType : Nat) (name : String)
  | createRecord (contentType : Nat)
  | deleteRecord (recordId : Nat)
deriving DecidableEq, Repr

/-- One operator event applied to the store. -/
def step (s : DBState) : Cmd → Except DBErr DBState
  | .createLanguage d => (Language_save s d).map (fun p => p.2)
  | .createField ct name => (Field_objects_create s ct name).map (fun p => p.2)
  | .createRecord ct => (Record_objects_create s ct).map (fun p => p.2)
  | .deleteRecord rid =>
      match s.records.find? (fun r => r.id == rid) with
      | some r => .ok (Record_delete s r)
      | none => .error .doesNotExist

/-- The empty store, pk sequences starting at 1 as in Django. -/
def initState : DBState :=
  { languages := [], fields := [], items := [], translations := [], records := [],
    nextLanguageId := 1, nextFieldId := 1, nextItemId := 1, nextTranslationId := 1,
    nextRecordId := 1 }

/-- States produced from the empty store by successful operator events. -/
inductive Reachable : DBState → Prop where
  | init : Reachable initState
  | step {s s' : DBState} {c : Cmd} : Reachable s → step s c = .ok s' → Reachable s'

/-- The `unique_together ['field', 'object_id']` key of an Item. -/
def itemKey (fid oid : Nat) : Item → Bool :=
  fun i => i.field == fid && i.object_id == oid

/-- The `unique_together ['language', 'item']` key of a Translation. -/
def pairKey (lid iid : Nat) : Translation → Bool :=
  fun t => t.language == lid && t.item == iid

/-- The rows a successful `Translation.objects.bulk_create` appends:
one empty-text row per `(language, item)` pair, pks counted from `startId`. -/
def mkTranslations (startId : Nat) : List (Nat × Nat) → List Translation
  | [] => []
  | (lid, iid) :: rest =>
      { id := startId, language := lid, item := iid, text := "" } ::
        mkTranslations (startId + 1) rest

/-! ### A concrete trace: Language "English", Field "title" on kind 1, one record -/

/-- After `Language(name="English", iso2="en", iso3="eng",
django_language_name="en-US").save()` on the empty store. -/
def sW1 : DBState :=
  { initState with
      languages := [{ id := 1, name := "English", iso2 := "EN", iso3 := "ENG",
                      django_language_name := "en-US" }],
      nextLanguageId := 2 }

/-- After additionally `Field.objects.create(content_type=1, name="title")`. -/
def sW2 : DBState :=
  { sW1 with fields := [{ id := 1, content_type := 1, name := "title" }], nextFieldId := 2 }

/-- After additionally creating one record of kind 1: one Item, one empty
Translation, and the pointer written back onto the record. -/
def sW3 : DBState :=
  { sW2 with
      items := [{ id := 1, field := 1, object_id := 1, content_type := 1 }],
      translations := [{ id := 1, language := 1, item := 1, text := "" }],
      records := [{ id := 1, content_type := 1, attrs := [("title", 1)] }],
      nextItemId := 2, nextTranslationId := 2, nextRecordId := 2 }

/-- The Field created by `Field.objects.create(content_type=1, name="subtitle")` on `sW3`. -/
def fW4 : Field := { id := 2, content_type := 1, name := "subtitle" }

/-- The store after that second Field creation: a second Item and
Translation, and a second pointer on the record. -/
def sW4 : DBState :=
  { sW3 with
      fields := [{ id := 1, content_type := 1, name := "title" }, fW4],
      items := [{ id := 1, field := 1, object_id := 1, content_type := 1 },
                { id := 2, field := 2, object_id := 1, content_type := 1 }],
      translations := [{ id := 1, language := 1, item := 1, text := "" },
                       { id := 2, language := 1, item := 2, text := "" }],
      records := [{ id := 1, content_type := 1, attrs := [("title", 1), ("subtitle", 2)] }],
      nextFieldId := 3, nextItemId := 3, nextTranslationId := 3 }

/-- The store after deleting record 1 from `sW3`: Items and Translations cascade away. -/
def sW5 : DBState := { sW3 with items := [], translations := [], records := [] }

/-- The store exactly midway through `step sW2 (.createRecord 1)`: the
record and its Item row are inserted, the Item's post-save signal has not
yet run, so the Item has no Translations yet.  This is the state at which
`create_translations_from_item` is invoked by the program. -/
def sC1 : DBState :=
  { sW2 with
      items := [{ id := 1, field := 1, object_id := 1, content_type := 1 }],
      records := [{ id := 1, content_type := 1, attrs := [] }],
      nextItemId := 2, nextRecordId := 2 }

/-- Operator input with lowercase ISO codes. -/
def frData : LanguageData :=
  { name := "French", iso2 := "fr", iso3 := "fra", django_language_name := "fr-FR" }

/-- The Language row stored for `frData`: ISO codes uppercased. -/
def frLang : Language :=
  { id := 1, name := "French", iso2 := "FR", iso3 := "FRA", django_language_name := "fr-FR" }

/-- The store after saving `frData` on the empty store. -/
def sWF : DBState := { initState with languages := [frLang], nextLanguageId := 2 }

/-! ### Counting kit -/

theorem cnt_nil {α : Type} (p : α → Bool) : cnt ([] : List α) p = 0 := rfl

theorem cnt_cons {α : Type} (a : α) (l : List α) (p : α → Bool) :
    cnt (a :: l) p = cnt l p + (if p a = true then 1 else 0) := by
  simp only [cnt, List.filter_cons]
  split <;> simp [Nat.add_comm]

theorem cnt_append {α : Type} (l₁ l₂ : List α) (p : α → Bool) :
    cnt (l₁ ++ l₂) p = cnt l₁ p + cnt l₂ p := by
  simp [cnt, List.filter_append]

theorem cnt_eq_zero {α : Type} {l : List α} {p : α → Bool} :
    cnt l p = 0 ↔ ∀ a ∈ l, ¬ p a = true := by
  simp [cnt, List.length_eq_zero, List.filter_eq_nil_iff]

theorem cnt_pos_of_mem {α : Type} {l : List α} {p : α → Bool} {a : α}
    (h : a ∈ l) (hp : p a = true) : 0 < cnt l p := by
  have hmem : a ∈ l.filter p := List.mem_filter.mpr ⟨h, hp⟩
  exact List.length_pos.mpr (List.ne_nil_of_mem hmem)

theorem mem_of_cnt_pos {α : Type} {l : List α} {p : α → Bool}
    (h : 0 < cnt l p) : ∃ a ∈ l, p a = true := by
  cases hl : l.filter p with
  | nil => simp [cnt, hl] at h
  | cons x xs =>
      have hx : x ∈ l.filter p := by rw [hl]; exact List.mem_cons_self x xs
      exact ⟨x, (List.mem_filter.mp hx).1, (List.mem_filter.mp hx).2⟩

theorem cnt_le_cnt_of_imp {α : Type} {l : List α} {p q : α → Bool}
    (h : ∀ a ∈ l, p a = true → q a = true) : cnt l p ≤ cnt l q := by
  induction l with
  | nil => simp [cnt_nil]
  | cons a rest ih =>
      rw [cnt_cons, cnt_cons]
      have hrest := ih (fun a ha => h a (List.mem_cons_of_mem _ ha))
      have hcase : (if p a = true then 1 else 0) ≤ (if q a = true then 1 else 0) := by
        by_cases hpa : p a = true
        · simp [hpa, h a (List.mem_cons_self a rest) hpa]
        · simp [hpa]
      omega

theorem cnt_congr {α : Type} {l : List α} {p q : α → Bool}
    (h : ∀ a ∈ l, p a = q a) : cnt l p = cnt l q := by
  simp only [cnt]
  rw [List.filter_congr h]

theorem cnt_filter_le {α : Type} (l : List α) (p q : α → Bool) :
    cnt (l.filter q) p ≤ cnt l p := by
  rw [cnt, List.filter_filter]
  exact cnt_le_cnt_of_imp (fun a _ h => by
    simp only [Bool.and_eq_true] at h
    exact h.1)

theorem cnt_filter_of_imp {α : Type} {l : List α} {p q : α → Bool}
    (h : ∀ a, p a = true → q a = true) : cnt (l.filter q) p = cnt l p := by
  rw [cnt, List.filter_filter]
  apply cnt_congr
  intro a _
  by_cases hpa : p a = true
  · simp [hpa, h a hpa]
  · simp [Bool.eq_false_iff.mpr hpa]

theorem two_le_length_of_mem_ne {α : Type} {L : List α} {a b : α}
    (ha : a ∈ L) (hb : b ∈ L) (hne : a ≠ b) : 2 ≤ L.length := by
  induction L with
  | nil => cases ha
  | cons x xs ih =>
      simp only [List.mem_cons] at ha hb
      rcases ha with rfl | ha
      · rcases hb with rfl | hb
        · exact absurd rfl hne
        · have := List.length_pos_of_mem hb
          simp only [List.length_cons]; omega
      · have := List.length_pos_of_mem ha
        simp only [List.length_cons]; omega

theorem eq_of_cnt_le_one {α : Type} {l : List α} {p : α → Bool} {a b : α}
    (h : cnt l p ≤ 1) (ha : a ∈ l) (hpa : p a = true) (hb : b ∈ l) (hpb : p b = true) :
    a = b := by
  by_contra hne
  have h2 : 2 ≤ cnt l p := by
    have ha' : a ∈ l.filter p := List.mem_filter.mpr ⟨ha, hpa⟩
    have hb' : b ∈ l.filter p := List.mem_filter.mpr ⟨hb, hpb⟩
    exact two_le_length_of_mem_ne ha' hb' hne
  omega

theorem cnt_eq_one_of_mem {α : Type} {l : List α} {p : α → Bool} {a : α}
    (h : cnt l p ≤ 1) (ha : a ∈ l) (hpa : p a = true) : cnt l p = 1 :=
  Nat.le_antisymm h (cnt_pos_of_mem ha hpa)

theorem cnt_map {α β : Type} (l : List α) (f : α → β) (p : β → Bool) :
    cnt (l.map f) p = cnt l (fun a => p (f a)) := by
  induction l with
  | nil => rfl
  | cons a rest ih => rw [List.map_cons, cnt_cons, cnt_cons, ih]

/-! ### Attribute (pointer column) kit -/

theorem getAttr_setAttr (a : List (String × Nat)) (n m : String) (v : Nat) :
    getAttr (setAttr a n v) m = if n == m then some v else getAttr a m := by
  induction a with
  | nil => simp [setAttr, getAttr]
  | cons kv rest ih =>
      obtain ⟨k, w⟩ := kv
      by_cases hkn : k = n
      · subst hkn
        by_cases hkm : k = m <;> simp [setAttr, getAttr, hkm]
      · by_cases hkm : k = m
        · subst hkm
          have hnm : ¬ n = k := fun h => hkn h.symm
          simp [setAttr, getAttr, hkn, hnm]
        · simp [setAttr, getAttr, hkn, hkm, ih]

/-! ### Bulk insertion kit -/

theorem insertTranslations_eq (objs : List (Nat × Nat)) (s : DBState) :
    insertTranslations s objs =
      { s with
          translations := s.translations ++ mkTranslations s.nextTranslationId objs,
          nextTranslationId := s.nextTranslationId + objs.length } := by
  induction objs generalizing s with
  | nil => simp [insertTranslations, mkTranslations]
  | cons p rest ih =>
      obtain ⟨lid, iid⟩ := p
      rw [insertTranslations, ih]
      simp only [mkTranslations, List.length_cons]
      congr 1
      · simp [List.append_assoc]
      · omega

theorem mkTranslations_mem {objs : List (Nat × Nat)} {n : Nat} :
    ∀ t ∈ mkTranslations n objs, (t.language, t.item) ∈ objs ∧ t.text = "" := by
  induction objs generalizing n with
  | nil => intro t ht; cases ht
  | cons p rest ih =>
      obtain ⟨lid, iid⟩ := p
      intro t ht
      rcases List.mem_cons.mp ht with rfl | ht
      · exact ⟨List.mem_cons_self _ _, rfl⟩
      · obtain ⟨h1, h2⟩ := ih t ht
        exact ⟨List.mem_cons_of_mem _ h1, h2⟩

theorem mkTranslations_cnt (objs : List (Nat × Nat)) (n lid iid : Nat) :
    cnt (mkTranslations n objs) (pairKey lid iid) =
      cnt objs (fun p => p.1 == lid && p.2 == iid) := by
  induction objs generalizing n with
  | nil => rfl
  | cons p rest ih =>
      obtain ⟨a, b⟩ := p
      rw [mkTranslations, cnt_cons, cnt_cons, ih]
      simp [pairKey]

theorem cnt_cons_le {α : Type} (a : α) (l : List α) (p : α → Bool) :
    cnt l p ≤ cnt (a :: l) p := by
  rw [cnt_cons]; omega

theorem cnt_append_singleton {α : Type} (l : List α) (a : α) (p : α → Bool) :
    cnt (l ++ [a]) p = cnt l p + (if p a = true then 1 else 0) := by
  rw [cnt_append, cnt_cons, cnt_nil]
  omega

theorem hasDupPair_right {α : Type} (y : Nat) (g : α → Nat) (L : List α)
    (h : ∀ k, cnt L (fun a => g a == k) ≤ 1) :
    hasDupPair (L.map (fun a => (g a, y))) = false := by
  induction L with
  | nil => rfl
  | cons a rest ih =>
      rw [List.map_cons, hasDupPair]
      have h1 : (rest.map (fun a => (g a, y))).contains (g a, y) = false := by
        apply Bool.eq_false_iff.mpr
        intro hc
        have hmem : ((g a, y) : Nat × Nat) ∈ rest.map (fun a => (g a, y)) := by
          simpa [List.contains, List.elem_iff] using hc
        obtain ⟨b, hb, hfb⟩ := List.mem_map.mp hmem
        have hgb : g b = g a := by
          have := congrArg Prod.fst hfb
          simpa using this
        have hcnt := h (g a)
        rw [cnt_cons] at hcnt
        have hpos : 0 < cnt rest (fun c => g c == g a) :=
          cnt_pos_of_mem hb (by simp [hgb])
        simp only [beq_self_eq_true, if_pos] at hcnt
        omega
      rw [h1]
      simp only [Bool.false_or]
      exact ih (fun k => Nat.le_trans (cnt_cons_le a rest _) (h k))

/-! ### record_save kit -/

theorem record_save_components (s : DBState) (rid : Nat) (attr : String) (v : Nat) :
    (record_save s rid attr v).languages = s.languages ∧
    (record_save s rid attr v).fields = s.fields ∧
    (record_save s rid attr v).items = s.items ∧
    (record_save s rid attr v).translations = s.translations ∧
    (record_save s rid attr v).nextLanguageId = s.nextLanguageId ∧
    (record_save s rid attr v).nextFieldId = s.nextFieldId ∧
    (record_save s rid attr v).nextItemId = s.nextItemId ∧
    (record_save s rid attr v).nextTranslationId = s.nextTranslationId ∧
    (record_save s rid attr v).nextRecordId = s.nextRecordId := by
  simp [record_save]

theorem record_save_records_shape (s : DBState) (rid : Nat) (attr : String) (v : Nat) :
    (record_save s rid attr v).records.map (fun r => (r.id, r.content_type)) =
      s.records.map (fun r => (r.id, r.content_type)) := by
  simp only [record_save, List.map_map]
  apply List.map_congr_left
  intro r _
  simp only [Function.comp]
  split <;> rfl

theorem record_save_mem {s : DBState} {rid : Nat} {attr : String} {v : Nat} {r' : Record}
    (h : r' ∈ (record_save s rid attr v).records) :
    ∃ r ∈ s.records, r'.id = r.id ∧ r'.content_type = r.content_type ∧
      ((r.id ≠ rid ∧ r' = r) ∨ (r.id = rid ∧ r'.attrs = setAttr r.attrs attr v)) := by
  simp only [record_save] at h
  obtain ⟨r, hr, hφ⟩ := List.mem_map.mp h
  by_cases hid : r.id = rid
  · refine ⟨r, hr, ?_, ?_, Or.inr ⟨hid, ?_⟩⟩ <;>
      · rw [← hφ]; simp [hid]
  · have : r' = r := by rw [← hφ]; simp [hid]
    exact ⟨r, hr, by rw [this], by rw [this], Or.inl ⟨hid, this⟩⟩

theorem record_save_mem_of_ne {s : DBState} {rid : Nat} {attr : String} {v : Nat} {r : Record}
    (h : r ∈ s.records) (hne : r.id ≠ rid) : r ∈ (record_save s rid attr v).records := by
  simp only [record_save]
  refine List.mem_map.mpr ⟨r, h, ?_⟩
  simp [hne]

theorem record_save_cnt_id (s : DBState) (rid : Nat) (attr : String) (v : Nat) (k : Nat) :
    cnt (record_save s rid attr v).records (fun r => r.id == k) =
      cnt s.records (fun r => r.id == k) := by
  simp only [record_save]
  rw [cnt_map]
  apply cnt_congr
  intro r _
  split <;> rfl

/-! ### The inductive invariant -/

/-- The well-formedness invariant maintained by the synchronizer: pk and
declared-constraint uniqueness, pk-sequence freshness, referential
soundness of Translations, translation completeness
(one empty row per live (item, language) pair), and pointer correctness
(every Item is reachable from its record's pointer attribute named after
its Field). -/
structure WF (s : DBState) : Prop where
  lang_id : ∀ k, cnt s.languages (fun l => l.id == k) ≤ 1
  field_id : ∀ k, cnt s.fields (fun f => f.id == k) ≤ 1
  item_id : ∀ k, cnt s.items (fun i => i.id == k) ≤ 1
  record_id : ∀ k, cnt s.records (fun r => r.id == k) ≤ 1
  item_key : ∀ fid oid, cnt s.items (itemKey fid oid) ≤ 1
  field_key : ∀ ct n, cnt s.fields (fun f => f.content_type == ct && f.name == n) ≤ 1
  pair_key : ∀ lid iid, cnt s.translations (pairKey lid iid) ≤ 1
  lang_lt : ∀ l ∈ s.languages, l.id < s.nextLanguageId
  field_lt : ∀ f ∈ s.fields, f.id < s.nextFieldId
  item_lt : ∀ i ∈ s.items, i.id < s.nextItemId
  record_lt : ∀ r ∈ s.records, r.id < s.nextRecordId
  item_field_lt : ∀ i ∈ s.items, i.field < s.nextFieldId
  item_object_lt : ∀ i ∈ s.items, i.object_id < s.nextRecordId
  trans_item : ∀ t ∈ s.translations, ∃ i ∈ s.items, i.id = t.item
  trans_lang : ∀ t ∈ s.translations, ∃ l ∈ s.languages, l.id = t.language
  trans_text : ∀ t ∈ s.translations, t.text = ""
  complete : ∀ i ∈ s.items, ∀ l ∈ s.languages, cnt s.translations (pairKey l.id i.id) = 1
  item_field : ∀ i ∈ s.items, ∃ f ∈ s.fields, f.id = i.field ∧ f.content_type = i.content_type
  item_record_ct : ∀ i ∈ s.items, ∀ r ∈ s.records, r.id = i.object_id →
                     r.content_type = i.content_type
  ptr : ∀ i ∈ s.items, ∀ f ∈ s.fields, f.id = i.field → ∀ r ∈ s.records,
          r.id = i.object_id → getAttr r.attrs f.name = some i.id

theorem WF.trans_item_lt {s : DBState} (hwf : WF s) :
    ∀ t ∈ s.translations, t.item < s.nextItemId := by
  intro t ht
  obtain ⟨i, hi, hid⟩ := hwf.trans_item t ht
  exact hid ▸ hwf.item_lt i hi

theorem WF.trans_lang_lt {s : DBState} (hwf : WF s) :
    ∀ t ∈ s.translations, t.language < s.nextLanguageId := by
  intro t ht
  obtain ⟨l, hl, hid⟩ := hwf.trans_lang t ht
  exact hid ▸ hwf.lang_lt l hl

/-! ### Characterization of Item.objects.create and its fan-out -/

theorem create_translations_from_item_eq (st : DBState) (it : Item)
    (hfresh : ∀ t ∈ st.translations, t.item ≠ it.id)
    (hlang : ∀ k, cnt st.languages (fun l => l.id == k) ≤ 1)
    (hmem : ∃ i ∈ st.items, i.id = it.id) :
    create_translations_from_item st it true =
      .ok { st with
              translations := st.translations ++
                mkTranslations st.nextTranslationId
                  (st.languages.map (fun l => (l.id, it.id))),
              nextTranslationId := st.nextTranslationId + st.languages.length } := by
  rw [create_translations_from_item]
  simp only [if_true]
  by_cases hL : st.languages = []
  · obtain ⟨a, b, c, d, e, f, g, h, i, j⟩ := st
    simp only at hL
    subst hL
    simp [mkTranslations]
  · have hlen : 0 < st.languages.length := List.length_pos.mpr hL
    rw [if_pos hlen]
    have hc1 : (st.languages.map (fun l => (l.id, it.id))).any
        (fun p => st.translations.any (fun t => t.language == p.1 && t.item == p.2)) = false := by
      rw [List.any_eq_false]
      intro p hp
      obtain ⟨l, _, rfl⟩ := List.mem_map.mp hp
      intro hc
      obtain ⟨t, ht, htp⟩ := List.any_eq_true.mp hc
      simp only [Bool.and_eq_true, beq_iff_eq] at htp
      exact hfresh t ht htp.2
    have hc2 : hasDupPair (st.languages.map (fun l => (l.id, it.id))) = false :=
      hasDupPair_right it.id (fun l => l.id) st.languages hlang
    have hc3 : (st.languages.map (fun l => (l.id, it.id))).any
        (fun p => !(st.languages.any (fun l => l.id == p.1))
          || !(st.items.any (fun i => i.id == p.2))) = false := by
      rw [List.any_eq_false]
      intro p hp
      obtain ⟨l, hl, rfl⟩ := List.mem_map.mp hp
      obtain ⟨i0, hi0, hi0id⟩ := hmem
      have hA : st.languages.any (fun x => x.id == l.id) = true :=
        List.any_eq_true.mpr ⟨l, hl, by simp⟩
      have hB : st.items.any (fun i => i.id == it.id) = true :=
        List.any_eq_true.mpr ⟨i0, hi0, by simp [hi0id]⟩
      simp [hA, hB]
    rw [Translation_objects_bulk_create, hc1, hc2, hc3]
    simp only [Bool.or_self, Bool.false_eq_true, if_false]
    rw [insertTranslations_eq]
    simp [List.length_map]

theorem Item_objects_create_eq (st : DBState) (fid oid ct : Nat)
    (hkey : cnt st.items (itemKey fid oid) = 0)
    (hfresh : ∀ t ∈ st.translations, t.item < st.nextItemId)
    (hlang : ∀ k, cnt st.languages (fun l => l.id == k) ≤ 1) :
    Item_objects_create st fid oid ct =
      .ok ({ id := st.nextItemId, field := fid, object_id := oid, content_type := ct },
           { st with
               items := st.items ++
                 [{ id := st.nextItemId, field := fid, object_id := oid, content_type := ct }],
               nextItemId := st.nextItemId + 1,
               translations := st.translations ++
                 mkTranslations st.nextTranslationId
                   (st.languages.map (fun l => (l.id, st.nextItemId))),
               nextTranslationId := st.nextTranslationId + st.languages.length }) := by
  have hany : st.items.any (fun i => i.field == fid && i.object_id == oid) = false := by
    rw [List.any_eq_false]
    intro i hi
    exact cnt_eq_zero.mp hkey i hi
  rw [Item_objects_create, hany]
  simp only [Bool.false_eq_true, if_false]
  have heq := create_translations_from_item_eq
    { st with
        items := st.items ++
          [{ id := st.nextItemId, field := fid, object_id := oid, content_type := ct }],
        nextItemId := st.nextItemId + 1 }
    { id := st.nextItemId, field := fid, object_id := oid, content_type := ct }
    (fun t ht => Nat.ne_of_lt (hfresh t ht)) hlang
    ⟨{ id := st.nextItemId, field := fid, object_id := oid, content_type := ct },
      List.mem_append_right _ (List.mem_singleton_self _), rfl⟩
  rw [heq]

theorem cnt_snoc_le_one {α : Type} {l : List α} {a : α} {p : α → Bool}
    (h : cnt l p ≤ 1) (hcase : p a = false ∨ cnt l p = 0) : cnt (l ++ [a]) p ≤ 1 := by
  rw [cnt_append_singleton]
  rcases hcase with hpa | h0
  · simp [hpa]; exact h
  · rw [h0]; split <;> omega

theorem cnt_id_fresh (items : List Item) (n : Nat) (hlt : ∀ i ∈ items, i.id < n) :
    cnt items (fun i => i.id == n) = 0 :=
  cnt_eq_zero.mpr (fun i hi hk => by
    simp only [beq_iff_eq] at hk
    have := hlt i hi
    omega)

theorem cnt_pair_fresh (ts : List Translation) (lid n : Nat) (hlt : ∀ t ∈ ts, t.item < n) :
    cnt ts (pairKey lid n) = 0 :=
  cnt_eq_zero.mpr (fun t ht hk => by
    simp only [pairKey, Bool.and_eq_true, beq_iff_eq] at hk
    have := hlt t ht
    omega)

theorem cnt_mk_pairs (L : List Language) (nid n lid iid : Nat) :
    cnt (mkTranslations n (L.map (fun l => (l.id, nid)))) (pairKey lid iid) =
      if nid = iid then cnt L (fun l => l.id == lid) else 0 := by
  rw [mkTranslations_cnt, cnt_map]
  by_cases h : nid = iid
  · rw [if_pos h]
    apply cnt_congr
    intro l _
    simp [h]
  · rw [if_neg h]
    apply cnt_eq_zero.mpr
    intro l _ hc
    simp only [Bool.and_eq_true, beq_iff_eq] at hc
    exact h hc.2

/-- One iteration of either fan-out loop: creating the Item for
`(fid, oid)` succeeds, and after `setattr`+`save` of the pointer attribute
`fname` the invariant holds again. -/
theorem wf_item_step (st : DBState) (fid oid ct : Nat) (fname : String)
    (hwf : WF st)
    (hkey : cnt st.items (itemKey fid oid) = 0)
    (hf : ∃ f ∈ st.fields, f.id = fid ∧ f.content_type = ct ∧ f.name = fname)
    (hr : ∃ r ∈ st.records, r.id = oid ∧ r.content_type = ct)
    (hkeyname : ∀ f ∈ st.fields, f.content_type = ct → f.name = fname → f.id = fid) :
    ∃ st2 st3,
      Item_objects_create st fid oid ct =
        .ok ({ id := st.nextItemId, field := fid, object_id := oid, content_type := ct }, st2) ∧
      record_save st2 oid fname st.nextItemId = st3 ∧
      WF st3 ∧
      st3.languages = st.languages ∧
      st3.fields = st.fields ∧
      st3.nextLanguageId = st.nextLanguageId ∧
      st3.nextFieldId = st.nextFieldId ∧
      st3.nextRecordId = st.nextRecordId ∧
      st3.items = st.items ++
        [{ id := st.nextItemId, field := fid, object_id := oid, content_type := ct }] ∧
      st3.records.map (fun r => (r.id, r.content_type)) =
        st.records.map (fun r => (r.id, r.content_type)) := by
  obtain ⟨f0, hf0mem, hf0id, hf0ct, hf0name⟩ := hf
  obtain ⟨r0, hr0mem, hr0id, hr0ct⟩ := hr
  have hcreate := Item_objects_create_eq st fid oid ct hkey hwf.trans_item_lt hwf.lang_id
  refine ⟨_, _, hcreate, rfl, ?_, rfl, rfl, rfl, rfl, rfl, rfl,
    record_save_records_shape _ _ _ _⟩
  refine { lang_id := hwf.lang_id, field_id := hwf.field_id, field_key := hwf.field_key,
           lang_lt := hwf.lang_lt, field_lt := hwf.field_lt,
           item_id := ?_, record_id := ?_, item_key := ?_, pair_key := ?_,
           item_lt := ?_, record_lt := ?_, item_field_lt := ?_, item_object_lt := ?_,
           trans_item := ?_, trans_lang := ?_, trans_text := ?_, complete := ?_,
           item_field := ?_, item_record_ct := ?_, ptr := ?_ }
  · -- item_id
    intro k
    show cnt (st.items ++
      [{ id := st.nextItemId, field := fid, object_id := oid, content_type := ct }])
      (fun i => i.id == k) ≤ 1
    apply cnt_snoc_le_one (hwf.item_id k)
    by_cases hk : st.nextItemId = k
    · right
      exact hk ▸ cnt_id_fresh st.items st.nextItemId hwf.item_lt
    · left
      simp only [beq_iff_eq]
      simp [hk]
  · -- record_id
    intro k
    show cnt (record_save _ oid fname st.nextItemId).records (fun r => r.id == k) ≤ 1
    rw [record_save_cnt_id]
    exact hwf.record_id k
  · -- item_key
    intro fid' oid'
    show cnt (st.items ++
      [{ id := st.nextItemId, field := fid, object_id := oid, content_type := ct }])
      (itemKey fid' oid') ≤ 1
    apply cnt_snoc_le_one (hwf.item_key fid' oid')
    by_cases h1 : fid = fid' ∧ oid = oid'
    · right
      exact h1.1 ▸ h1.2 ▸ hkey
    · left
      apply Bool.eq_false_iff.mpr
      intro hc
      simp only [itemKey, Bool.and_eq_true, beq_iff_eq] at hc
      exact h1 ⟨hc.1, hc.2⟩
  · -- pair_key
    intro lid iid
    show cnt (st.translations ++ mkTranslations st.nextTranslationId
      (st.languages.map (fun l => (l.id, st.nextItemId)))) (pairKey lid iid) ≤ 1
    rw [cnt_append, cnt_mk_pairs]
    by_cases hiid : st.nextItemId = iid
    · rw [if_pos hiid]
      rw [← hiid, cnt_pair_fresh st.translations lid st.nextItemId hwf.trans_item_lt]
      simpa using hwf.lang_id lid
    · rw [if_neg hiid]
      have := hwf.pair_key lid iid
      omega
  · -- item_lt
    intro i' hi'
    show i'.id < st.nextItemId + 1
    rcases List.mem_append.mp hi' with hold | hnew
    · have := hwf.item_lt i' hold
      omega
    · rw [List.mem_singleton.mp hnew]
      show st.nextItemId < st.nextItemId + 1
      omega
  · -- record_lt
    intro r' hr'
    obtain ⟨r, hrmem, hrid, _, _⟩ := record_save_mem hr'
    show r'.id < st.nextRecordId
    rw [hrid]
    exact hwf.record_lt r hrmem
  · -- item_field_lt
    intro i' hi'
    show i'.field < st.nextFieldId
    rcases List.mem_append.mp hi' with hold | hnew
    · exact hwf.item_field_lt i' hold
    · rw [List.mem_singleton.mp hnew]
      exact hf0id ▸ hwf.field_lt f0 hf0mem
  · -- item_object_lt
    intro i' hi'
    show i'.object_id < st.nextRecordId
    rcases List.mem_append.mp hi' with hold | hnew
    · exact hwf.item_object_lt i' hold
    · rw [List.mem_singleton.mp hnew]
      exact hr0id ▸ hwf.record_lt r0 hr0mem
  · -- trans_item
    intro t ht
    rcases List.mem_append.mp ht with hold | hnew
    · obtain ⟨i, hi, hid⟩ := hwf.trans_item t hold
      exact ⟨i, List.mem_append_left _ hi, hid⟩
    · obtain ⟨hpair, _⟩ := mkTranslations_mem t hnew
      obtain ⟨l, _, hl⟩ := List.mem_map.mp hpair
      refine ⟨{ id := st.nextItemId, field := fid, object_id := oid, content_type := ct },
        List.mem_append_right _ (List.mem_singleton_self _), ?_⟩
      have := congrArg Prod.snd hl
      simpa using this
  · -- trans_lang
    intro t ht
    rcases List.mem_append.mp ht with hold | hnew
    · exact hwf.trans_lang t hold
    · obtain ⟨hpair, _⟩ := mkTranslations_mem t hnew
      obtain ⟨l, hlmem, hl⟩ := List.mem_map.mp hpair
      refine ⟨l, hlmem, ?_⟩
      have := congrArg Prod.fst hl
      simpa using this
  · -- trans_text
    intro t ht
    rcases List.mem_append.mp ht with hold | hnew
    · exact hwf.trans_text t hold
    · exact (mkTranslations_mem t hnew).2
  · -- complete
    intro i' hi' l hl
    show cnt (st.translations ++ mkTranslations st.nextTranslationId
      (st.languages.map (fun lg => (lg.id, st.nextItemId)))) (pairKey l.id i'.id) = 1
    rw [cnt_append, cnt_mk_pairs]
    rcases List.mem_append.mp hi' with hold | hnew
    · have hne : ¬ st.nextItemId = i'.id := by
        have := hwf.item_lt i' hold
        omega
      rw [if_neg hne]
      rw [hwf.complete i' hold l hl]
    · rw [List.mem_singleton.mp hnew]
      show cnt st.translations (pairKey l.id st.nextItemId) +
        (if st.nextItemId = st.nextItemId then cnt st.languages (fun lg => lg.id == l.id)
         else 0) = 1
      rw [if_pos rfl, cnt_pair_fresh st.translations l.id st.nextItemId hwf.trans_item_lt]
      rw [cnt_eq_one_of_mem (hwf.lang_id l.id) hl (by simp)]
  · -- item_field
    intro i' hi'
    rcases List.mem_append.mp hi' with hold | hnew
    · exact hwf.item_field i' hold
    · rw [List.mem_singleton.mp hnew]
      exact ⟨f0, hf0mem, hf0id, hf0ct⟩
  · -- item_record_ct
    intro i' hi' r' hr' hrid'
    obtain ⟨r, hrmem, hrid, hrct, _⟩ := record_save_mem hr'
    show r'.content_type = i'.content_type
    rw [hrct]
    rcases List.mem_append.mp hi' with hold | hnew
    · exact hwf.item_record_ct i' hold r hrmem (by rw [← hrid]; exact hrid')
    · have hieq := List.mem_singleton.mp hnew
      have hoid : r.id = oid := by
        rw [← hrid, hrid', hieq]
      have hrr0 : r = r0 :=
        eq_of_cnt_le_one (hwf.record_id oid) hrmem (by simp [hoid]) hr0mem (by simp [hr0id])
      rw [hieq, hrr0, hr0ct]
  · -- ptr
    intro i' hi' f hfmem hfi r' hr'mem hr'id
    obtain ⟨r, hrmem, hrid, hrct, hcases⟩ := record_save_mem hr'mem
    rcases List.mem_append.mp hi' with hold | hnew
    · rcases hcases with ⟨hne, heq⟩ | ⟨hreq, hattrs⟩
      · rw [heq]
        exact hwf.ptr i' hold f hfmem hfi r hrmem (by rw [← hrid]; exact hr'id)
      · rw [hattrs, getAttr_setAttr]
        by_cases hname : fname = f.name
        · exfalso
          obtain ⟨f1, hf1mem, hf1id, hf1ct⟩ := hwf.item_field i' hold
          have hff1 : f = f1 :=
            eq_of_cnt_le_one (hwf.field_id i'.field) hfmem (by simp [hfi]) hf1mem
              (by simp [hf1id])
          have hfct : f.content_type = i'.content_type := by rw [hff1]; exact hf1ct
          have hrio : r.id = i'.object_id := by rw [← hrid]; exact hr'id
          have hctr : r.content_type = i'.content_type :=
            hwf.item_record_ct i' hold r hrmem hrio
          have hrr0 : r = r0 :=
            eq_of_cnt_le_one (hwf.record_id oid) hrmem (by simp [hreq]) hr0mem
              (by simp [hr0id])
          have hctc : f.content_type = ct := by
            rw [hfct, ← hctr, hrr0, hr0ct]
          have hfid : f.id = fid := hkeyname f hfmem hctc hname.symm
          have h1 : i'.field = fid := by rw [← hfi, hfid]
          have h2 : i'.object_id = oid := by rw [← hrio, hreq]
          have hpos : 0 < cnt st.items (itemKey fid oid) :=
            cnt_pos_of_mem hold (by simp [itemKey, h1, h2])
          omega
        · rw [if_neg (by simp only [beq_iff_eq]; exact hname)]
          exact hwf.ptr i' hold f hfmem hfi r hrmem (by rw [← hrid]; exact hr'id)
    · have hieq := List.mem_singleton.mp hnew
      have hfid : f.id = fid := by
        rw [hfi, hieq]
      have hff0 : f = f0 :=
        eq_of_cnt_le_one (hwf.field_id fid) hfmem (by simp [hfid]) hf0mem (by simp [hf0id])
      have hfname : f.name = fname := by rw [hff0, hf0name]
      have hoid : r.id = oid := by
        rw [← hrid, hr'id, hieq]
      rcases hcases with ⟨hne, _⟩ | ⟨_, hattrs⟩
      · exact absurd hoid hne
      · rw [hattrs, getAttr_setAttr, hfname]
        rw [if_pos (by simp)]
        rw [hieq]

theorem cnt_tail_zero {α : Type} {a : α} {l : List α} {p : α → Bool}
    (h : cnt (a :: l) p ≤ 1) (hpa : p a = true) : cnt l p = 0 := by
  rw [cnt_cons] at h
  simp only [hpa, if_pos] at h
  omega

theorem mem_shape_transport {l l' : List Record} {r : Record}
    (h : l'.map (fun x => (x.id, x.content_type)) = l.map (fun x => (x.id, x.content_type)))
    (hr : r ∈ l) : ∃ r' ∈ l', r'.id = r.id ∧ r'.content_type = r.content_type := by
  have hm : ((r.id, r.content_type) : Nat × Nat) ∈ l.map (fun x => (x.id, x.content_type)) :=
    List.mem_map_of_mem _ hr
  rw [← h] at hm
  obtain ⟨r', hr', heq⟩ := List.mem_map.mp hm
  exact ⟨r', hr', congrArg Prod.fst heq, congrArg Prod.snd heq⟩

/-- The whole `create_items_from_field` loop: given pairwise-distinct
pending objects none of which has an Item for the new Field yet, the loop
succeeds, preserves the invariant, creates exactly one Item per pending
object, and touches nothing else. -/
theorem create_items_loop_spec (inst : Field) (objs : List Record) (st : DBState)
    (hwf : WF st)
    (hf : ∃ f ∈ st.fields, f.id = inst.id ∧ f.content_type = inst.content_type ∧
          f.name = inst.name)
    (hkeyname : ∀ f ∈ st.fields, f.content_type = inst.content_type → f.name = inst.name →
          f.id = inst.id)
    (hpend : ∀ o ∈ objs, (∃ r ∈ st.records, r.id = o.id ∧ r.content_type = inst.content_type) ∧
          cnt st.items (itemKey inst.id o.id) = 0)
    (hnodup : ∀ k, cnt objs (fun o => o.id == k) ≤ 1) :
    ∃ st', create_items_loop inst objs st = .ok st' ∧ WF st' ∧
      st'.languages = st.languages ∧ st'.fields = st.fields ∧
      st'.nextLanguageId = st.nextLanguageId ∧ st'.nextFieldId = st.nextFieldId ∧
      st'.nextRecordId = st.nextRecordId ∧
      (∃ newItems, st'.items = st.items ++ newItems ∧
        ∀ i ∈ newItems, i.field = inst.id ∧ ∃ o ∈ objs, o.id = i.object_id) ∧
      (∀ o ∈ objs, cnt st'.items (itemKey inst.id o.id) = 1) ∧
      st'.records.map (fun r => (r.id, r.content_type)) =
        st.records.map (fun r => (r.id, r.content_type)) := by
  induction objs generalizing st with
  | nil =>
      exact ⟨st, rfl, hwf, rfl, rfl, rfl, rfl, rfl, ⟨[], by simp, by simp⟩, by simp, rfl⟩
  | cons obj rest ih =>
      obtain ⟨⟨r0, hr0mem, hr0id, hr0ct⟩, hkey0⟩ := hpend obj (List.mem_cons_self _ _)
      obtain ⟨st2, st3, hcr, hsave, hwf3, hlang3, hfields3, hnl3, hnf3, hnr3, hitems3, hrecs3⟩ :=
        wf_item_step st inst.id obj.id inst.content_type inst.name hwf hkey0 hf
          ⟨r0, hr0mem, hr0id, hr0ct⟩ hkeyname
      have hrest_ne : ∀ o ∈ rest, ¬ o.id = obj.id := by
        have h0 : cnt rest (fun o => o.id == obj.id) = 0 :=
          cnt_tail_zero (hnodup obj.id) (by simp)
        intro o ho hc
        exact cnt_eq_zero.mp h0 o ho (by simp [hc])
      have hloop : create_items_loop inst (obj :: rest) st = create_items_loop inst rest st3 := by
        rw [create_items_loop, hcr, ← hsave]
      obtain ⟨st', hloop', hwf', hl', hfl', hnl', hnf', hnr',
              ⟨newItems, hitems', hnewdesc⟩, hcnt1', hrecs'⟩ :=
        ih st3 hwf3
          (by rw [hfields3]; exact hf)
          (by rw [hfields3]; exact hkeyname)
          (by
            intro o ho
            obtain ⟨⟨r, hrmem, hrid, hrct⟩, hkeyo⟩ := hpend o (List.mem_cons_of_mem _ ho)
            refine ⟨?_, ?_⟩
            · obtain ⟨r', hr', h1, h2⟩ := mem_shape_transport hrecs3 hrmem
              exact ⟨r', hr', by rw [h1, hrid], by rw [h2, hrct]⟩
            · rw [hitems3, cnt_append_singleton, hkeyo]
              rw [if_neg ?_]
              simp only [itemKey, Bool.and_eq_true, beq_iff_eq, not_and]
              intro _ hc
              exact absurd hc.symm (hrest_ne o ho))
          (fun k => Nat.le_trans (cnt_cons_le obj rest _) (hnodup k))
      refine ⟨st', by rw [hloop]; exact hloop', hwf',
        by rw [hl', hlang3], by rw [hfl', hfields3],
        by rw [hnl', hnl3], by rw [hnf', hnf3], by rw [hnr', hnr3],
        ⟨{ id := st.nextItemId, field := inst.id, object_id := obj.id,
           content_type := inst.content_type } :: newItems, ?_, ?_⟩, ?_,
        by rw [hrecs', hrecs3]⟩
      · rw [hitems', hitems3, List.append_assoc]
        rfl
      · intro i hi
        rcases List.mem_cons.mp hi with rfl | hi
        · exact ⟨rfl, obj, List.mem_cons_self _ _, rfl⟩
        · obtain ⟨h1, o, ho, h2⟩ := hnewdesc i hi
          exact ⟨h1, o, List.mem_cons_of_mem _ ho, h2⟩
      · intro o ho
        rcases List.mem_cons.mp ho with rfl | ho
        · rw [hitems', cnt_append, hitems3, cnt_append_singleton, hkey0]
          rw [if_pos (by simp [itemKey])]
          have hz : cnt newItems (itemKey inst.id o.id) = 0 := by
            apply cnt_eq_zero.mpr
            intro i hi hc
            obtain ⟨_, o', ho', h2⟩ := hnewdesc i hi
            simp only [itemKey, Bool.and_eq_true, beq_iff_eq] at hc
            exact hrest_ne o' ho' (by rw [h2, hc.2])
          omega
        · exact hcnt1' o ho

/-- The whole `create_translated_items` loop: given pairwise-distinct
pending Fields of the record's kind, none of which has an Item for the
record yet, the loop succeeds, preserves the invariant and creates exactly
one Item per pending Field. -/
theorem create_translated_items_loop_spec (inst : Record) (flds : List Field) (st : DBState)
    (hwf : WF st)
    (hr : ∃ r ∈ st.records, r.id = inst.id ∧ r.content_type = inst.content_type)
    (hpend : ∀ f ∈ flds, f ∈ st.fields ∧ f.content_type = inst.content_type ∧
          cnt st.items (itemKey f.id inst.id) = 0)
    (hnodup : ∀ k, cnt flds (fun f => f.id == k) ≤ 1) :
    ∃ st', create_translated_items_loop inst flds st = .ok st' ∧ WF st' ∧
      st'.languages = st.languages ∧ st'.fields = st.fields ∧
      st'.nextLanguageId = st.nextLanguageId ∧ st'.nextFieldId = st.nextFieldId ∧
      st'.nextRecordId = st.nextRecordId ∧
      (∃ newItems, st'.items = st.items ++ newItems ∧
        ∀ i ∈ newItems, i.object_id = inst.id ∧ ∃ f ∈ flds, f.id = i.field) ∧
      (∀ f ∈ flds, cnt st'.items (itemKey f.id inst.id) = 1) ∧
      st'.records.map (fun r => (r.id, r.content_type)) =
        st.records.map (fun r => (r.id, r.content_type)) := by
  induction flds generalizing st with
  | nil =>
      exact ⟨st, rfl, hwf, rfl, rfl, rfl, rfl, rfl, ⟨[], by simp, by simp⟩, by simp, rfl⟩
  | cons f fs ih =>
      obtain ⟨hfmem, hfct, hkey0⟩ := hpend f (List.mem_cons_self _ _)
      have hkeyname : ∀ f' ∈ st.fields, f'.content_type = inst.content_type →
          f'.name = f.name → f'.id = f.id := by
        intro f' hf'mem hf'ct hf'name
        have : f' = f :=
          eq_of_cnt_le_one (hwf.field_key inst.content_type f.name) hf'mem
            (by simp [hf'ct, hf'name]) hfmem (by simp [hfct])
        rw [this]
      obtain ⟨st2, st3, hcr, hsave, hwf3, hlang3, hfields3, hnl3, hnf3, hnr3, hitems3, hrecs3⟩ :=
        wf_item_step st f.id inst.id inst.content_type f.name hwf hkey0
          ⟨f, hfmem, rfl, hfct, rfl⟩ hr hkeyname
      have hrest_ne : ∀ f' ∈ fs, ¬ f'.id = f.id := by
        have h0 : cnt fs (fun x => x.id == f.id) = 0 :=
          cnt_tail_zero (hnodup f.id) (by simp)
        intro f' hf' hc
        exact cnt_eq_zero.mp h0 f' hf' (by simp [hc])
      have hloop : create_translated_items_loop inst (f :: fs) st =
          create_translated_items_loop inst fs st3 := by
        rw [create_translated_items_loop, hcr, ← hsave]
      obtain ⟨st', hloop', hwf', hl', hfl', hnl', hnf', hnr',
              ⟨newItems, hitems', hnewdesc⟩, hcnt1', hrecs'⟩ :=
        ih st3 hwf3
          (by
            obtain ⟨r, hrmem, h1, h2⟩ := hr
            obtain ⟨r', hr', h1', h2'⟩ := mem_shape_transport hrecs3 hrmem
            exact ⟨r', hr', by rw [h1', h1], by rw [h2', h2]⟩)
          (by
            intro f' hf'
            obtain ⟨hm, hc, hk⟩ := hpend f' (List.mem_cons_of_mem _ hf')
            refine ⟨by rw [hfields3]; exact hm, hc, ?_⟩
            rw [hitems3, cnt_append_singleton, hk]
            rw [if_neg ?_]
            simp only [itemKey, Bool.and_eq_true, beq_iff_eq, not_and]
            intro hc' _
            exact absurd hc'.symm (hrest_ne f' hf'))
          (fun k => Nat.le_trans (cnt_cons_le f fs _) (hnodup k))
      refine ⟨st', by rw [hloop]; exact hloop', hwf',
        by rw [hl', hlang3], by rw [hfl', hfields3],
        by rw [hnl', hnl3], by rw [hnf', hnf3], by rw [hnr', hnr3],
        ⟨{ id := st.nextItemId, field := f.id, object_id := inst.id,
           content_type := inst.content_type } :: newItems, ?_, ?_⟩, ?_,
        by rw [hrecs', hrecs3]⟩
      · rw [hitems', hitems3, List.append_assoc]
        rfl
      · intro i hi
        rcases List.mem_cons.mp hi with rfl | hi
        · exact ⟨rfl, f, List.mem_cons_self _ _, rfl⟩
        · obtain ⟨h1, f', hf', h2⟩ := hnewdesc i hi
          exact ⟨h1, f', List.mem_cons_of_mem _ hf', h2⟩
      · intro f' hf'
        rcases List.mem_cons.mp hf' with rfl | hf'
        · rw [hitems', cnt_append, hitems3, cnt_append_singleton, hkey0]
          rw [if_pos (by simp [itemKey])]
          have hz : cnt newItems (itemKey f'.id inst.id) = 0 := by
            apply cnt_eq_zero.mpr
            intro i hi hc
            obtain ⟨_, f'', hf'', h2⟩ := hnewdesc i hi
            simp only [itemKey, Bool.and_eq_true, beq_iff_eq] at hc
            exact hrest_ne f'' hf'' (by rw [h2, hc.1])
          omega
        · exact hcnt1' f' hf'

theorem cnt_key_fresh {α : Type} (l : List α) (g : α → Nat) (n : Nat)
    (hlt : ∀ a ∈ l, g a < n) : cnt l (fun a => g a == n) = 0 :=
  cnt_eq_zero.mpr (fun a ha hk => by
    simp only [beq_iff_eq] at hk
    have := hlt a ha
    omega)

theorem hasDupPair_left {α : Type} (y : Nat) (g : α → Nat) (L : List α)
    (h : ∀ k, cnt L (fun a => g a == k) ≤ 1) :
    hasDupPair (L.map (fun a => (y, g a))) = false := by
  induction L with
  | nil => rfl
  | cons a rest ih =>
      rw [List.map_cons, hasDupPair]
      have h1 : (rest.map (fun a => (y, g a))).contains (y, g a) = false := by
        apply Bool.eq_false_iff.mpr
        intro hc
        have hmem : ((y, g a) : Nat × Nat) ∈ rest.map (fun a => (y, g a)) := by
          simpa [List.contains, List.elem_iff] using hc
        obtain ⟨b, hb, hfb⟩ := List.mem_map.mp hmem
        have hgb : g b = g a := by
          have := congrArg Prod.snd hfb
          simpa using this
        have hcnt := h (g a)
        rw [cnt_cons] at hcnt
        have hpos : 0 < cnt rest (fun c => g c == g a) :=
          cnt_pos_of_mem hb (by simp [hgb])
        simp only [beq_self_eq_true, if_pos] at hcnt
        omega
      rw [h1]
      simp only [Bool.false_or]
      exact ih (fun k => Nat.le_trans (cnt_cons_le a rest _) (h k))

theorem cnt_mk_pairs_lang (L : List Item) (nlid n lid iid : Nat) :
    cnt (mkTranslations n (L.map (fun i => (nlid, i.id)))) (pairKey lid iid) =
      if nlid = lid then cnt L (fun i => i.id == iid) else 0 := by
  rw [mkTranslations_cnt, cnt_map]
  by_cases h : nlid = lid
  · rw [if_pos h]
    apply cnt_congr
    intro i _
    simp [h]
  · rw [if_neg h]
    apply cnt_eq_zero.mpr
    intro i _ hc
    simp only [Bool.and_eq_true, beq_iff_eq] at hc
    exact h hc.1

theorem cnt_pair_lang_fresh (ts : List Translation) (n iid : Nat)
    (hlt : ∀ t ∈ ts, t.language < n) : cnt ts (pairKey n iid) = 0 :=
  cnt_eq_zero.mpr (fun t ht hk => by
    simp only [pairKey, Bool.and_eq_true, beq_iff_eq] at hk
    have := hlt t ht
    omega)

theorem create_translations_from_language_eq (st : DBState) (lg : Language)
    (hfresh : ∀ t ∈ st.translations, t.language ≠ lg.id)
    (hitem : ∀ k, cnt st.items (fun i => i.id == k) ≤ 1)
    (hmem : ∃ l ∈ st.languages, l.id = lg.id) :
    create_translations_from_language st lg true =
      .ok { st with
              translations := st.translations ++
                mkTranslations st.nextTranslationId
                  (st.items.map (fun i => (lg.id, i.id))),
              nextTranslationId := st.nextTranslationId + st.items.length } := by
  rw [create_translations_from_language]
  simp only [if_true]
  by_cases hL : st.items = []
  · obtain ⟨a, b, c, d, e, f, g, h, i, j⟩ := st
    simp only at hL
    subst hL
    simp [mkTranslations]
  · have hlen : 0 < st.items.length := List.length_pos.mpr hL
    rw [if_pos hlen]
    have hc1 : (st.items.map (fun i => (lg.id, i.id))).any
        (fun p => st.translations.any (fun t => t.language == p.1 && t.item == p.2)) = false := by
      rw [List.any_eq_false]
      intro p hp
      obtain ⟨i, _, rfl⟩ := List.mem_map.mp hp
      intro hc
      obtain ⟨t, ht, htp⟩ := List.any_eq_true.mp hc
      simp only [Bool.and_eq_true, beq_iff_eq] at htp
      exact hfresh t ht htp.1
    have hc2 : hasDupPair (st.items.map (fun i => (lg.id, i.id))) = false :=
      hasDupPair_left lg.id (fun i => i.id) st.items hitem
    have hc3 : (st.items.map (fun i => (lg.id, i.id))).any
        (fun p => !(st.languages.any (fun l => l.id == p.1))
          || !(st.items.any (fun i => i.id == p.2))) = false := by
      rw [List.any_eq_false]
      intro p hp
      obtain ⟨i, hi, rfl⟩ := List.mem_map.mp hp
      obtain ⟨l0, hl0, hl0id⟩ := hmem
      have hA : st.languages.any (fun x => x.id == lg.id) = true :=
        List.any_eq_true.mpr ⟨l0, hl0, by simp [hl0id]⟩
      have hB : st.items.any (fun x => x.id == i.id) = true :=
        List.any_eq_true.mpr ⟨i, hi, by simp⟩
      simp [hA, hB]
    rw [Translation_objects_bulk_create, hc1, hc2, hc3]
    simp only [Bool.or_self, Bool.false_eq_true, if_false]
    rw [insertTranslations_eq]
    simp [List.length_map]

/-- A successful `Language(…).save()` appends the normalized Language row,
fans out one empty Translation per existing Item, and preserves the
invariant. -/
theorem Language_save_spec (s : DBState) (d : LanguageData) (lang : Language) (s' : DBState)
    (hwf : WF s) (h : Language_save s d = .ok (lang, s')) :
    WF s' ∧
    lang = { id := s.nextLanguageId, name := d.name, iso2 := pyUpper d.iso2,
             iso3 := pyUpper d.iso3, django_language_name := d.django_language_name } ∧
    s'.languages = s.languages ++ [lang] ∧
    s'.items = s.items ∧ s'.fields = s.fields ∧ s'.records = s.records ∧
    s'.nextItemId = s.nextItemId ∧ s'.nextFieldId = s.nextFieldId ∧
    s'.nextRecordId = s.nextRecordId := by
  rw [Language_save] at h
  by_cases hany : (s.languages.any (fun l => l.name == d.name || l.iso2 == pyUpper d.iso2 ||
      l.iso3 == pyUpper d.iso3 || l.django_language_name == d.django_language_name)) = true
  · rw [if_pos hany] at h
    cases h
  · simp only [if_neg hany] at h
    have heq := create_translations_from_language_eq
      { s with
          languages := s.languages ++
            [{ id := s.nextLanguageId, name := d.name, iso2 := pyUpper d.iso2,
               iso3 := pyUpper d.iso3, django_language_name := d.django_language_name }],
          nextLanguageId := s.nextLanguageId + 1 }
      { id := s.nextLanguageId, name := d.name, iso2 := pyUpper d.iso2,
        iso3 := pyUpper d.iso3, django_language_name := d.django_language_name }
      (fun t ht => Nat.ne_of_lt (hwf.trans_lang_lt t ht)) hwf.item_id
      ⟨{ id := s.nextLanguageId, name := d.name, iso2 := pyUpper d.iso2,
         iso3 := pyUpper d.iso3, django_language_name := d.django_language_name },
        List.mem_append_right _ (List.mem_singleton_self _), rfl⟩
    rw [heq] at h
    injection h with h2
    injection h2 with hlg hs
    subst hlg
    subst hs
    refine ⟨?_, rfl, rfl, rfl, rfl, rfl, rfl, rfl, rfl⟩
    refine { field_id := hwf.field_id, item_id := hwf.item_id, record_id := hwf.record_id,
             item_key := hwf.item_key, field_key := hwf.field_key,
             field_lt := hwf.field_lt, item_lt := hwf.item_lt, record_lt := hwf.record_lt,
             item_field_lt := hwf.item_field_lt, item_object_lt := hwf.item_object_lt,
             item_field := hwf.item_field, item_record_ct := hwf.item_record_ct,
             ptr := hwf.ptr,
             lang_id := ?_, pair_key := ?_, lang_lt := ?_, trans_item := ?_,
             trans_lang := ?_, trans_text := ?_, complete := ?_ }
    · -- lang_id
      intro k
      show cnt (s.languages ++
        [{ id := s.nextLanguageId, name := d.name, iso2 := pyUpper d.iso2,
           iso3 := pyUpper d.iso3, django_language_name := d.django_language_name }])
        (fun l => l.id == k) ≤ 1
      apply cnt_snoc_le_one (hwf.lang_id k)
      by_cases hk : s.nextLanguageId = k
      · right
        exact hk ▸ cnt_key_fresh s.languages (fun l => l.id) s.nextLanguageId hwf.lang_lt
      · left
        simp only [beq_iff_eq]
        simp [hk]
    · -- pair_key
      intro lid iid
      show cnt (s.translations ++ mkTranslations s.nextTranslationId
        (s.items.map (fun i => (s.nextLanguageId, i.id)))) (pairKey lid iid) ≤ 1
      rw [cnt_append, cnt_mk_pairs_lang]
      by_cases hlid : s.nextLanguageId = lid
      · rw [if_pos hlid]
        rw [← hlid, cnt_pair_lang_fresh s.translations s.nextLanguageId iid hwf.trans_lang_lt]
        simpa using hwf.item_id iid
      · rw [if_neg hlid]
        have := hwf.pair_key lid iid
        omega
    · -- lang_lt
      intro l hl
      show l.id < s.nextLanguageId + 1
      rcases List.mem_append.mp hl with hold | hnew
      · have := hwf.lang_lt l hold
        omega
      · rw [List.mem_singleton.mp hnew]
        show s.nextLanguageId < s.nextLanguageId + 1
        omega
    · -- trans_item
      intro t ht
      rcases List.mem_append.mp ht with hold | hnew
      · exact hwf.trans_item t hold
      · obtain ⟨hpair, _⟩ := mkTranslations_mem t hnew
        obtain ⟨i, himem, hi⟩ := List.mem_map.mp hpair
        refine ⟨i, himem, ?_⟩
        have := congrArg Prod.snd hi
        simpa using this
    · -- trans_lang
      intro t ht
      rcases List.mem_append.mp ht with hold | hnew
      · obtain ⟨l, hl, hid⟩ := hwf.trans_lang t hold
        exact ⟨l, List.mem_append_left _ hl, hid⟩
      · obtain ⟨hpair, _⟩ := mkTranslations_mem t hnew
        obtain ⟨i, _, hi⟩ := List.mem_map.mp hpair
        refine ⟨_, List.mem_append_right _ (List.mem_singleton_self _), ?_⟩
        have := congrArg Prod.fst hi
        simpa using this
    · -- trans_text
      intro t ht
      rcases List.mem_append.mp ht with hold | hnew
      · exact hwf.trans_text t hold
      · exact (mkTranslations_mem t hnew).2
    · -- complete
      intro i hi l hl
      show cnt (s.translations ++ mkTranslations s.nextTranslationId
        (s.items.map (fun x => (s.nextLanguageId, x.id)))) (pairKey l.id i.id) = 1
      rw [cnt_append, cnt_mk_pairs_lang]
      rcases List.mem_append.mp hl with hold | hnew
      · have hne : ¬ s.nextLanguageId = l.id := by
          have := hwf.lang_lt l hold
          omega
        rw [if_neg hne]
        rw [hwf.complete i hi l hold]
      · rw [List.mem_singleton.mp hnew]
        show cnt s.translations (pairKey s.nextLanguageId i.id) +
          (if s.nextLanguageId = s.nextLanguageId then cnt s.items (fun x => x.id == i.id)
           else 0) = 1
        rw [if_pos rfl, cnt_pair_lang_fresh s.translations s.nextLanguageId i.id
          hwf.trans_lang_lt]
        rw [cnt_eq_one_of_mem (hwf.item_id i.id) hi (by simp)]

theorem wf_addField (s : DBState) (ct : Nat) (name : String)
    (hwf : WF s)
    (hany : (s.fields.any (fun f => f.content_type == ct && f.name == name)) = false) :
    WF { s with
           fields := s.fields ++ [{ id := s.nextFieldId, content_type := ct, name := name }],
           nextFieldId := s.nextFieldId + 1 } := by
  refine { lang_id := hwf.lang_id, item_id := hwf.item_id, record_id := hwf.record_id,
           item_key := hwf.item_key, pair_key := hwf.pair_key,
           lang_lt := hwf.lang_lt, item_lt := hwf.item_lt, record_lt := hwf.record_lt,
           item_object_lt := hwf.item_object_lt,
           trans_item := hwf.trans_item, trans_lang := hwf.trans_lang,
           trans_text := hwf.trans_text,
           complete := hwf.complete, item_record_ct := hwf.item_record_ct,
           field_id := ?_, field_key := ?_, field_lt := ?_, item_field_lt := ?_,
           item_field := ?_, ptr := ?_ }
  · intro k
    show cnt (s.fields ++ [{ id := s.nextFieldId, content_type := ct, name := name }])
      (fun f => f.id == k) ≤ 1
    apply cnt_snoc_le_one (hwf.field_id k)
    by_cases hk : s.nextFieldId = k
    · right
      exact hk ▸ cnt_key_fresh s.fields (fun f => f.id) s.nextFieldId hwf.field_lt
    · left
      simp only [beq_iff_eq]
      simp [hk]
  · intro ct' n'
    show cnt (s.fields ++ [{ id := s.nextFieldId, content_type := ct, name := name }])
      (fun f => f.content_type == ct' && f.name == n') ≤ 1
    apply cnt_snoc_le_one (hwf.field_key ct' n')
    by_cases h1 : ct = ct' ∧ name = n'
    · right
      rw [← h1.1, ← h1.2]
      exact cnt_eq_zero.mpr (fun f hf hc => List.any_eq_false.mp hany f hf hc)
    · left
      apply Bool.eq_false_iff.mpr
      intro hc
      simp only [Bool.and_eq_true, beq_iff_eq] at hc
      exact h1 ⟨hc.1, hc.2⟩
  · intro f hf
    show f.id < s.nextFieldId + 1
    rcases List.mem_append.mp hf with hold | hnew
    · have := hwf.field_lt f hold
      omega
    · rw [List.mem_singleton.mp hnew]
      show s.nextFieldId < s.nextFieldId + 1
      omega
  · intro i hi
    show i.field < s.nextFieldId + 1
    have := hwf.item_field_lt i hi
    omega
  · intro i hi
    obtain ⟨f, hf, h1, h2⟩ := hwf.item_field i hi
    exact ⟨f, List.mem_append_left _ hf, h1, h2⟩
  · intro i hi f hfmem hfi r hr hrid
    rcases List.mem_append.mp hfmem with hold | hnew
    · exact hwf.ptr i hi f hold hfi r hr hrid
    · exfalso
      have h1 : f.id = s.nextFieldId := by rw [List.mem_singleton.mp hnew]
      have := hwf.item_field_lt i hi
      omega

theorem wf_addRecord (s : DBState) (ct : Nat) (hwf : WF s) :
    WF { s with
           records := s.records ++ [{ id := s.nextRecordId, content_type := ct, attrs := [] }],
           nextRecordId := s.nextRecordId + 1 } := by
  refine { lang_id := hwf.lang_id, field_id := hwf.field_id, item_id := hwf.item_id,
           item_key := hwf.item_key, field_key := hwf.field_key, pair_key := hwf.pair_key,
           lang_lt := hwf.lang_lt, field_lt := hwf.field_lt, item_lt := hwf.item_lt,
           item_field_lt := hwf.item_field_lt,
           trans_item := hwf.trans_item, trans_lang := hwf.trans_lang,
           trans_text := hwf.trans_text,
           complete := hwf.complete, item_field := hwf.item_field,
           record_id := ?_, record_lt := ?_, item_object_lt := ?_,
           item_record_ct := ?_, ptr := ?_ }
  · intro k
    show cnt (s.records ++ [{ id := s.nextRecordId, content_type := ct, attrs := [] }])
      (fun r => r.id == k) ≤ 1
    apply cnt_snoc_le_one (hwf.record_id k)
    by_cases hk : s.nextRecordId = k
    · right
      exact hk ▸ cnt_key_fresh s.records (fun r => r.id) s.nextRecordId hwf.record_lt
    · left
      simp only [beq_iff_eq]
      simp [hk]
  · intro r hr
    show r.id < s.nextRecordId + 1
    rcases List.mem_append.mp hr with hold | hnew
    · have := hwf.record_lt r hold
      omega
    · rw [List.mem_singleton.mp hnew]
      show s.nextRecordId < s.nextRecordId + 1
      omega
  · intro i hi
    show i.object_id < s.nextRecordId + 1
    have := hwf.item_object_lt i hi
    omega
  · intro i hi r hr hrid
    rcases List.mem_append.mp hr with hold | hnew
    · exact hwf.item_record_ct i hi r hold hrid
    · exfalso
      have h1 : r.id = s.nextRecordId := by rw [List.mem_singleton.mp hnew]
      have := hwf.item_object_lt i hi
      omega
  · intro i hi f hfmem hfi r hr hrid
    rcases List.mem_append.mp hr with hold | hnew
    · exact hwf.ptr i hi f hfmem hfi r hold hrid
    · exfalso
      have h1 : r.id = s.nextRecordId := by rw [List.mem_singleton.mp hnew]
      have := hwf.item_object_lt i hi
      omega

/-- A successful `Field.objects.create` appends the Field row, creates
exactly one Item (with fan-out and pointer write-back) per existing record
of the Field's model, and preserves the invariant. -/
theorem Field_objects_create_spec (s : DBState) (ct : Nat) (name : String) (f : Field)
    (s' : DBState) (hwf : WF s) (h : Field_objects_create s ct name = .ok (f, s')) :
    WF s' ∧
    f = { id := s.nextFieldId, content_type := ct, name := name } ∧
    f ∈ s'.fields ∧
    s'.languages = s.languages ∧
    s'.fields = s.fields ++ [f] ∧
    (∀ o ∈ s.records, o.content_type = ct → cnt s'.items (itemKey f.id o.id) = 1) ∧
    (∃ newItems, s'.items = s.items ++ newItems ∧ ∀ i ∈ newItems, i.field = f.id) ∧
    s'.records.map (fun r => (r.id, r.content_type)) =
      s.records.map (fun r => (r.id, r.content_type)) := by
  rw [Field_objects_create] at h
  by_cases hany : (s.fields.any (fun x => x.content_type == ct && x.name == name)) = true
  · rw [if_pos hany] at h
    cases h
  · have hany' : (s.fields.any (fun x => x.content_type == ct && x.name == name)) = false :=
      Bool.eq_false_iff.mpr hany
    simp only [if_neg hany] at h
    have hwf1 := wf_addField s ct name hwf hany'
    obtain ⟨st', hloop, hwf', hl', hfl', hnl', hnf', hnr', hnewI, hcnt1, hrecs⟩ :=
      create_items_loop_spec { id := s.nextFieldId, content_type := ct, name := name }
        (({ s with
              fields := s.fields ++ [{ id := s.nextFieldId, content_type := ct, name := name }],
              nextFieldId := s.nextFieldId + 1 } : DBState).records.filter
          (fun r => r.content_type ==
            ({ id := s.nextFieldId, content_type := ct, name := name } : Field).content_type))
        { s with
            fields := s.fields ++ [{ id := s.nextFieldId, content_type := ct, name := name }],
            nextFieldId := s.nextFieldId + 1 }
        hwf1
        ⟨{ id := s.nextFieldId, content_type := ct, name := name },
          List.mem_append_right _ (List.mem_singleton_self _), rfl, rfl, rfl⟩
        (by
          intro f' hf' h1 h2
          rcases List.mem_append.mp hf' with hold | hnew
          · exact absurd (by simp [h1, h2] : (f'.content_type == ct && f'.name == name) = true)
              (List.any_eq_false.mp hany' f' hold)
          · rw [List.mem_singleton.mp hnew])
        (by
          intro o ho
          have hmem := List.mem_filter.mp ho
          have hct : o.content_type = ct := by
            have := hmem.2
            simpa [beq_iff_eq] using this
          refine ⟨⟨o, hmem.1, rfl, hct⟩, ?_⟩
          apply cnt_eq_zero.mpr
          intro i hi hc
          simp only [itemKey, Bool.and_eq_true, beq_iff_eq] at hc
          have := hwf.item_field_lt i hi
          omega)
        (fun k => Nat.le_trans (cnt_filter_le _ _ _) (hwf.record_id k))
    have hcf : create_items_from_field
        { s with
            fields := s.fields ++ [{ id := s.nextFieldId, content_type := ct, name := name }],
            nextFieldId := s.nextFieldId + 1 }
        { id := s.nextFieldId, content_type := ct, name := name } true =
        create_items_loop { id := s.nextFieldId, content_type := ct, name := name }
          (({ s with
                fields := s.fields ++
                  [{ id := s.nextFieldId, content_type := ct, name := name }],
                nextFieldId := s.nextFieldId + 1 } : DBState).records.filter
            (fun r => r.content_type ==
              ({ id := s.nextFieldId, content_type := ct, name := name } : Field).content_type))
          { s with
              fields := s.fields ++ [{ id := s.nextFieldId, content_type := ct, name := name }],
              nextFieldId := s.nextFieldId + 1 } := rfl
    rw [hcf, hloop] at h
    injection h with h2
    injection h2 with hfeq hseq
    subst hseq
    subst hfeq
    refine ⟨hwf', rfl, ?_, hl', hfl', ?_, ?_, hrecs⟩
    · rw [hfl']
      exact List.mem_append_right _ (List.mem_singleton_self _)
    · intro o ho hoct
      apply hcnt1
      exact List.mem_filter.mpr ⟨ho, by simp [hoct]⟩
    · obtain ⟨newItems, hitems, hdesc⟩ := hnewI
      exact ⟨newItems, hitems, fun i hi => (hdesc i hi).1⟩

/-- Creating a record of a translatable kind with zero registered Fields
raises the `RuntimeError` of `create_translated_items`. -/
theorem Record_objects_create_err (s : DBState) (ct : Nat)
    (h0 : cnt s.fields (fun f => f.content_type == ct) = 0) :
    Record_objects_create s ct = .error .runtimeError := by
  have hlen : (get_translated_fields
      { s with
          records := s.records ++ [{ id := s.nextRecordId, content_type := ct, attrs := [] }],
          nextRecordId := s.nextRecordId + 1 }
      { id := s.nextRecordId, content_type := ct, attrs := [] }).length = 0 := h0
  have hct_err : create_translated_items
      { s with
          records := s.records ++ [{ id := s.nextRecordId, content_type := ct, attrs := [] }],
          nextRecordId := s.nextRecordId + 1 }
      { id := s.nextRecordId, content_type := ct, attrs := [] } true = .error .runtimeError := by
    rw [create_translated_items]
    simp only [if_true]
    rw [if_neg (by omega)]
  have htot : Record_objects_create s ct =
      (match create_translated_items
          { s with
              records := s.records ++ [{ id := s.nextRecordId, content_type := ct, attrs := [] }],
              nextRecordId := s.nextRecordId + 1 }
          { id := s.nextRecordId, content_type := ct, attrs := [] } true with
       | .ok s2 => .ok (({ id := s.nextRecordId, content_type := ct, attrs := [] } : Record), s2)
       | .error e => .error e) := rfl
  rw [htot, hct_err]

/-- A successful record creation appends the record row, creates exactly
one Item (with fan-out and pointer write-back) per registered Field of the
record's kind, and preserves the invariant. -/
theorem Record_objects_create_spec (s : DBState) (ct : Nat) (r : Record) (s' : DBState)
    (hwf : WF s) (h : Record_objects_create s ct = .ok (r, s')) :
    WF s' ∧
    r = { id := s.nextRecordId, content_type := ct, attrs := [] } ∧
    s'.languages = s.languages ∧
    s'.fields = s.fields ∧
    (∀ f ∈ s.fields, f.content_type = ct → cnt s'.items (itemKey f.id r.id) = 1) ∧
    (∃ r' ∈ s'.records, r'.id = r.id ∧ r'.content_type = ct) := by
  have htot : Record_objects_create s ct =
      (match create_translated_items
          { s with
              records := s.records ++ [{ id := s.nextRecordId, content_type := ct, attrs := [] }],
              nextRecordId := s.nextRecordId + 1 }
          { id := s.nextRecordId, content_type := ct, attrs := [] } true with
       | .ok s2 => .ok (({ id := s.nextRecordId, content_type := ct, attrs := [] } : Record), s2)
       | .error e => .error e) := rfl
  rw [htot] at h
  by_cases hflen : (get_translated_fields
      { s with
          records := s.records ++ [{ id := s.nextRecordId, content_type := ct, attrs := [] }],
          nextRecordId := s.nextRecordId + 1 }
      { id := s.nextRecordId, content_type := ct, attrs := [] }).length > 0
  · have hct_ok : create_translated_items
        { s with
            records := s.records ++ [{ id := s.nextRecordId, content_type := ct, attrs := [] }],
            nextRecordId := s.nextRecordId + 1 }
        { id := s.nextRecordId, content_type := ct, attrs := [] } true =
        create_translated_items_loop { id := s.nextRecordId, content_type := ct, attrs := [] }
          (get_translated_fields
            { s with
                records := s.records ++
                  [{ id := s.nextRecordId, content_type := ct, attrs := [] }],
                nextRecordId := s.nextRecordId + 1 }
            { id := s.nextRecordId, content_type := ct, attrs := [] })
          { s with
              records := s.records ++ [{ id := s.nextRecordId, content_type := ct, attrs := [] }],
              nextRecordId := s.nextRecordId + 1 } := by
      rw [create_translated_items]
      simp only [if_true]
      rw [if_pos hflen]
    have hwf1 := wf_addRecord s ct hwf
    obtain ⟨st', hloop, hwf', hl', hfl', hnl', hnf', hnr', hnewI, hcnt1, hrecs⟩ :=
      create_translated_items_loop_spec { id := s.nextRecordId, content_type := ct, attrs := [] }
        (get_translated_fields
          { s with
              records := s.records ++ [{ id := s.nextRecordId, content_type := ct, attrs := [] }],
              nextRecordId := s.nextRecordId + 1 }
          { id := s.nextRecordId, content_type := ct, attrs := [] })
        { s with
            records := s.records ++ [{ id := s.nextRecordId, content_type := ct, attrs := [] }],
            nextRecordId := s.nextRecordId + 1 }
        hwf1
        ⟨{ id := s.nextRecordId, content_type := ct, attrs := [] },
          List.mem_append_right _ (List.mem_singleton_self _), rfl, rfl⟩
        (by
          intro f' hf'
          have hmem := List.mem_filter.mp hf'
          refine ⟨hmem.1, by simpa [beq_iff_eq] using hmem.2, ?_⟩
          apply cnt_eq_zero.mpr
          intro i hi hc
          simp only [itemKey, Bool.and_eq_true, beq_iff_eq] at hc
          have := hwf.item_object_lt i hi
          omega)
        (fun k => Nat.le_trans (cnt_filter_le _ _ _) (hwf.field_id k))
    rw [hct_ok, hloop] at h
    injection h with h2
    injection h2 with hreq hseq
    subst hseq
    subst hreq
    refine ⟨hwf', rfl, hl', hfl', ?_, ?_⟩
    · intro f hf hct
      apply hcnt1
      exact List.mem_filter.mpr ⟨hf, by simp [hct]⟩
    · obtain ⟨r', hr', h1, h2⟩ := mem_shape_transport hrecs
        (List.mem_append_right s.records (List.mem_singleton_self _))
      exact ⟨r', hr', h1, h2⟩
  · have hct_err : create_translated_items
        { s with
            records := s.records ++ [{ id := s.nextRecordId, content_type := ct, attrs := [] }],
            nextRecordId := s.nextRecordId + 1 }
        { id := s.nextRecordId, content_type := ct, attrs := [] } true =
        .error .runtimeError := by
      rw [create_translated_items]
      simp only [if_true]
      rw [if_neg hflen]
    rw [hct_err] at h
    cases h

/-! ### Deletion -/

theorem wf_remove_record (s : DBState) (rid : Nat) (hwf : WF s) :
    WF { s with records := s.records.filter (fun x => !(x.id == rid)) } := by
  refine { lang_id := hwf.lang_id, field_id := hwf.field_id, item_id := hwf.item_id,
           item_key := hwf.item_key, field_key := hwf.field_key, pair_key := hwf.pair_key,
           lang_lt := hwf.lang_lt, field_lt := hwf.field_lt, item_lt := hwf.item_lt,
           item_field_lt := hwf.item_field_lt, item_object_lt := hwf.item_object_lt,
           trans_item := hwf.trans_item, trans_lang := hwf.trans_lang,
           trans_text := hwf.trans_text, complete := hwf.complete,
           item_field := hwf.item_field,
           record_id := ?_, record_lt := ?_, item_record_ct := ?_, ptr := ?_ }
  · intro k
    exact Nat.le_trans (cnt_filter_le _ _ _) (hwf.record_id k)
  · intro r hr
    exact hwf.record_lt r (List.mem_filter.mp hr).1
  · intro i hi r hr hrid
    exact hwf.item_record_ct i hi r (List.mem_filter.mp hr).1 hrid
  · intro i hi f hf hfi r hr hrid
    exact hwf.ptr i hi f hf hfi r (List.mem_filter.mp hr).1 hrid

theorem wf_item_queryset_delete (s : DBState) (ids : List Nat) (hwf : WF s) :
    WF (Item_queryset_delete s ids) := by
  refine { lang_id := hwf.lang_id, field_id := hwf.field_id, record_id := hwf.record_id,
           field_key := hwf.field_key, lang_lt := hwf.lang_lt, field_lt := hwf.field_lt,
           record_lt := hwf.record_lt,
           item_id := ?_, item_key := ?_, pair_key := ?_, item_lt := ?_,
           item_field_lt := ?_, item_object_lt := ?_, trans_item := ?_, trans_lang := ?_,
           trans_text := ?_, complete := ?_, item_field := ?_, item_record_ct := ?_,
           ptr := ?_ }
  · intro k
    exact Nat.le_trans (cnt_filter_le _ _ _) (hwf.item_id k)
  · intro fid oid
    exact Nat.le_trans (cnt_filter_le _ _ _) (hwf.item_key fid oid)
  · intro lid iid
    exact Nat.le_trans (cnt_filter_le _ _ _) (hwf.pair_key lid iid)
  · intro i hi
    exact hwf.item_lt i (List.mem_filter.mp hi).1
  · intro i hi
    exact hwf.item_field_lt i (List.mem_filter.mp hi).1
  · intro i hi
    exact hwf.item_object_lt i (List.mem_filter.mp hi).1
  · intro t ht
    obtain ⟨htmem, htp⟩ := List.mem_filter.mp ht
    obtain ⟨i, hi, hid⟩ := hwf.trans_item t htmem
    refine ⟨i, List.mem_filter.mpr ⟨hi, ?_⟩, hid⟩
    cases hcon : ids.contains i.id with
    | false => rfl
    | true =>
        exfalso
        have hidoom : i.id ∈ (s.items.filter (fun x => ids.contains x.id)).map
            (fun x => x.id) :=
          List.mem_map_of_mem _ (List.mem_filter.mpr ⟨hi, hcon⟩)
        have hcd : ((s.items.filter (fun x => ids.contains x.id)).map
            (fun x => x.id)).contains t.item = true := by
          rw [← hid]
          simpa [List.contains, List.elem_iff] using hidoom
        rw [hcd] at htp
        simp at htp
  · intro t ht
    exact hwf.trans_lang t (List.mem_filter.mp ht).1
  · intro t ht
    exact hwf.trans_text t (List.mem_filter.mp ht).1
  · intro i hi l hl
    obtain ⟨himem, hip⟩ := List.mem_filter.mp hi
    show cnt (s.translations.filter (fun t =>
      !(((s.items.filter (fun x => ids.contains x.id)).map (fun x => x.id)).contains t.item)))
      (pairKey l.id i.id) = 1
    rw [cnt_filter_of_imp ?_]
    · exact hwf.complete i himem l hl
    · intro t hp
      have hti : t.item = i.id := by
        simp only [pairKey, Bool.and_eq_true, beq_iff_eq] at hp
        exact hp.2
      cases hcon : ((s.items.filter (fun x => ids.contains x.id)).map
          (fun x => x.id)).contains t.item with
      | false => rfl
      | true =>
          exfalso
          have hmem : t.item ∈ (s.items.filter (fun x => ids.contains x.id)).map
              (fun x => x.id) := by
            simpa [List.contains, List.elem_iff] using hcon
          obtain ⟨i', hi'f, hi'id⟩ := List.mem_map.mp hmem
          obtain ⟨_, hcon2⟩ := List.mem_filter.mp hi'f
          have : ids.contains i.id = true := by
            rw [← hti, ← hi'id]
            exact hcon2
          rw [this] at hip
          simp at hip
  · intro i hi
    exact hwf.item_field i (List.mem_filter.mp hi).1
  · intro i hi r hr hrid
    exact hwf.item_record_ct i (List.mem_filter.mp hi).1 r hr hrid
  · intro i hi f hf hfi r hr hrid
    exact hwf.ptr i (List.mem_filter.mp hi).1 f hf hfi r hr hrid

theorem delete_translated_items_cases (s : DBState) (inst : Record) :
    (delete_translated_items s inst = s ∧
      ((get_translated_fields s inst).length = 0 ∨
       (((get_translated_fields s inst).map (fun f => getAttr inst.attrs f.name)).filterMap
          (fun x => x)).length = 0)) ∨
    delete_translated_items s inst =
      Item_queryset_delete s
        (((get_translated_fields s inst).map (fun f => getAttr inst.attrs f.name)).filterMap
          (fun x => x)) := by
  by_cases h1 : (get_translated_fields s inst).length > 0
  · by_cases h2 : (((get_translated_fields s inst).map
        (fun f => getAttr inst.attrs f.name)).filterMap (fun x => x)).length > 0
    · right
      simp only [delete_translated_items]
      rw [if_pos h1, if_pos h2]
    · left
      refine ⟨?_, Or.inr (by omega)⟩
      simp only [delete_translated_items]
      rw [if_pos h1, if_neg h2]
  · left
    refine ⟨?_, Or.inl (by omega)⟩
    simp only [delete_translated_items]
    rw [if_neg h1]

/-- Deleting a record removes the record row, every Item whose pointer the
record held, and (by cascade) their Translations, while preserving the
invariant; under the invariant no Item of the record survives. -/
theorem Record_delete_spec (s : DBState) (r : Record) (hwf : WF s) (hr : r ∈ s.records) :
    WF (Record_delete s r) ∧
    cnt (Record_delete s r).records (fun x => x.id == r.id) = 0 ∧
    cnt (Record_delete s r).items (fun i => i.object_id == r.id) = 0 := by
  have hwf1 := wf_remove_record s r.id hwf
  have hrec0 : cnt (s.records.filter (fun x => !(x.id == r.id))) (fun x => x.id == r.id) = 0 :=
    cnt_eq_zero.mpr (fun x hx hc => by
      have h2 := (List.mem_filter.mp hx).2
      rw [hc] at h2
      simp at h2)
  have hK : ∀ i ∈ s.items, i.object_id = r.id →
      i.id ∈ ((get_translated_fields
        { s with records := s.records.filter (fun x => !(x.id == r.id)) } r).map
          (fun f => getAttr r.attrs f.name)).filterMap (fun x => x) := by
    intro i hi hio
    obtain ⟨f0, hf0, hf0id, hf0ct⟩ := hwf.item_field i hi
    have hict : r.content_type = i.content_type := hwf.item_record_ct i hi r hr hio.symm
    have hf0in : f0 ∈ get_translated_fields
        { s with records := s.records.filter (fun x => !(x.id == r.id)) } r := by
      refine List.mem_filter.mpr ⟨hf0, ?_⟩
      simp [beq_iff_eq, hf0ct, hict]
    have hptr : getAttr r.attrs f0.name = some i.id := hwf.ptr i hi f0 hf0 hf0id r hr hio.symm
    apply List.mem_filterMap.mpr
    exact ⟨some i.id, by rw [← hptr]; exact List.mem_map_of_mem _ hf0in, rfl⟩
  have hshow : Record_delete s r = delete_translated_items
      { s with records := s.records.filter (fun x => !(x.id == r.id)) } r := rfl
  rcases delete_translated_items_cases
      { s with records := s.records.filter (fun x => !(x.id == r.id)) } r with
    ⟨heq, hz⟩ | heq
  · rw [hshow, heq]
    refine ⟨hwf1, hrec0, ?_⟩
    apply cnt_eq_zero.mpr
    intro i hi hc
    have hio : i.object_id = r.id := by simpa [beq_iff_eq] using hc
    have hmem := hK i hi hio
    have hpos := List.length_pos_of_mem hmem
    have hle : (((get_translated_fields
        { s with records := s.records.filter (fun x => !(x.id == r.id)) } r).map
          (fun f => getAttr r.attrs f.name)).filterMap (fun x => x)).length ≤
        (get_translated_fields
          { s with records := s.records.filter (fun x => !(x.id == r.id)) } r).length := by
      calc (((get_translated_fields
            { s with records := s.records.filter (fun x => !(x.id == r.id)) } r).map
              (fun f => getAttr r.attrs f.name)).filterMap (fun x => x)).length
          ≤ ((get_translated_fields
              { s with records := s.records.filter (fun x => !(x.id == r.id)) } r).map
                (fun f => getAttr r.attrs f.name)).length := List.length_filterMap_le _ _
        _ = _ := List.length_map _ _
    rcases hz with hz | hz <;> omega
  · rw [hshow, heq]
    refine ⟨wf_item_queryset_delete _ _ hwf1, hrec0, ?_⟩
    apply cnt_eq_zero.mpr
    intro i hi hc
    have hio : i.object_id = r.id := by simpa [beq_iff_eq] using hc
    obtain ⟨himem, hip⟩ := List.mem_filter.mp hi
    have hmem := hK i himem hio
    have : (((get_translated_fields
        { s with records := s.records.filter (fun x => !(x.id == r.id)) } r).map
          (fun f => getAttr r.attrs f.name)).filterMap (fun x => x)).contains i.id = true := by
      simpa [List.contains, List.elem_iff] using hmem
    rw [this] at hip
    simp at hip

/-! ### The invariant holds in every reachable state -/

theorem wf_init : WF initState := by
  refine { lang_id := ?_, field_id := ?_, item_id := ?_, record_id := ?_, item_key := ?_,
           field_key := ?_, pair_key := ?_, lang_lt := ?_, field_lt := ?_, item_lt := ?_,
           record_lt := ?_, item_field_lt := ?_, item_object_lt := ?_, trans_item := ?_,
           trans_lang := ?_, trans_text := ?_, complete := ?_, item_field := ?_,
           item_record_ct := ?_, ptr := ?_ } <;>
    intros <;> simp_all [initState, cnt]

theorem wf_step {s s' : DBState} {c : Cmd} (hwf : WF s) (h : step s c = .ok s') : WF s' := by
  cases c with
  | createLanguage d =>
      rw [step] at h
      cases hls : Language_save s d with
      | error e => rw [hls] at h; cases h
      | ok p =>
          obtain ⟨lang, s2⟩ := p
          rw [hls] at h
          injection h with h2
          subst h2
          exact (Language_save_spec s d lang s2 hwf hls).1
  | createField ct name =>
      rw [step] at h
      cases hls : Field_objects_create s ct name with
      | error e => rw [hls] at h; cases h
      | ok p =>
          obtain ⟨f, s2⟩ := p
          rw [hls] at h
          injection h with h2
          subst h2
          exact (Field_objects_create_spec s ct name f s2 hwf hls).1
  | createRecord ct =>
      rw [step] at h
      cases hls : Record_objects_create s ct with
      | error e => rw [hls] at h; cases h
      | ok p =>
          obtain ⟨r, s2⟩ := p
          rw [hls] at h
          injection h with h2
          subst h2
          exact (Record_objects_create_spec s ct r s2 hwf hls).1
  | deleteRecord rid =>
      rw [step] at h
      cases hfind : s.records.find? (fun r => r.id == rid) with
      | none => rw [hfind] at h; cases h
      | some r =>
          rw [hfind] at h
          injection h with h2
          subst h2
          exact (Record_delete_spec s r hwf (List.mem_of_find?_eq_some hfind)).1

theorem reachable_wf {s : DBState} (h : Reachable s) : WF s := by
  induction h with
  | init => exact wf_init
  | step _ hstep ih => exact wf_step ih hstep

/-! ### The concrete trace is reachable -/

theorem sW1_step :
    step initState (.createLanguage ⟨"English", "en", "eng", "en-US"⟩) = .ok sW1 := by decide

theorem sW2_step : step sW1 (.createField 1 "title") = .ok sW2 := by decide

theorem sW3_step : step sW2 (.createRecord 1) = .ok sW3 := by decide

theorem sW1_reach : Reachable sW1 := Reachable.step Reachable.init sW1_step

theorem sW2_reach : Reachable sW2 := Reachable.step sW1_reach sW2_step

theorem sW3_reach : Reachable sW3 := Reachable.step sW2_reach sW3_step

/-! ### Components preserved by a successful Translation bulk insert -/

theorem Translation_objects_bulk_create_ok {st : DBState} {objs : List (Nat × Nat)}
    {res : DBState} (h : Translation_objects_bulk_create st objs = .ok res) :
    res.languages = st.languages := by
  rw [Translation_objects_bulk_create] at h
  split at h
  · cases h
  · injection h with h2
    rw [← h2, insertTranslations_eq]

theorem create_translations_from_language_ok {st : DBState} {lg : Language} {b : Bool}
    {res : DBState} (h : create_translations_from_language st lg b = .ok res) :
    res.languages = st.languages := by
  rw [create_translations_from_language] at h
  cases b with
  | false =>
      simp only [Bool.false_eq_true, if_false] at h
      injection h with h2
      rw [← h2]
  | true =>
      simp only [if_true] at h
      by_cases hlen : st.items.length > 0
      · rw [if_pos hlen] at h
        exact Translation_objects_bulk_create_ok h
      · rw [if_neg hlen] at h
        injection h with h2
        rw [← h2]

/-! ### The claims -/

/-- C1 counterexample: at `sC1` — Language 1 and Item 1 exist, the Item's
Translations do not yet, which is the very store state at which the Item
post-save signal runs — the bulk-create path of the Translation model
succeeds and creates a row, instead of failing; and the program's own
`create_translations_from_item` handler is exactly that bulk-insert call. -/
theorem claim_C1_counterexample :
    Translation_objects_bulk_create sC1 [(1, 1)] =
      .ok { sC1 with
              translations := [{ id := 1, language := 1, item := 1, text := "" }],
              nextTranslationId := 2 } ∧
    create_translations_from_item sC1 { id := 1, field := 1, object_id := 1, content_type := 1 }
        true =
      Translation_objects_bulk_create sC1 [(1, 1)] := by
  constructor <;> decide

/-- C1 (amended): bulk-create on the Item model (whose manager is
`NoBulkCreateManager`) fails unconditionally with `NotImplementedError`
and creates no row; the Translation model keeps the default manager, whose
bulk-create is not disabled, and the program's Item/Language fan-out
handlers themselves bulk-insert Translation rows. -/
theorem claim_C1_amended :
    (∀ (s : DBState) (objs : List (Nat × Nat × Nat)),
      Item_objects_bulk_create s objs = .error .notImplementedError) ∧
    (∀ (α : Type) (s : DBState) (objs : List α),
      NoBulkCreateManager_bulk_create α s objs = .error .notImplementedError) ∧
    (∀ (s : DBState) (it : Item), 0 < s.languages.length →
      create_translations_from_item s it true =
        Translation_objects_bulk_create s (s.languages.map (fun l => (l.id, it.id)))) ∧
    (∀ (s : DBState) (lg : Language), 0 < s.items.length →
      create_translations_from_language s lg true =
        Translation_objects_bulk_create s (s.items.map (fun i => (lg.id, i.id)))) := by
  refine ⟨fun s objs => rfl, fun α s objs => rfl, ?_, ?_⟩
  · intro s it hlen
    rw [create_translations_from_item]
    simp only [if_true]
    rw [if_pos hlen]
  · intro s lg hlen
    rw [create_translations_from_language]
    simp only [if_true]
    rw [if_pos hlen]

theorem claim_C1_witness :
    Item_objects_bulk_create sW1 [(1, 1, 1)] = .error .notImplementedError ∧
    create_translations_from_item sC1
        { id := 1, field := 1, object_id := 1, content_type := 1 } true =
      Translation_objects_bulk_create sC1
        (sC1.languages.map (fun l =>
          (l.id, ({ id := 1, field := 1, object_id := 1, content_type := 1 } : Item).id))) ∧
    create_translations_from_language sW3 frLang true =
      Translation_objects_bulk_create sW3 (sW3.items.map (fun i => (frLang.id, i.id))) :=
  ⟨claim_C1_amended.1 sW1 [(1, 1, 1)],
   claim_C1_amended.2.2.1 sC1
     { id := 1, field := 1, object_id := 1, content_type := 1 } (by decide),
   claim_C1_amended.2.2.2 sW3 frLang (by decide)⟩

/-- C2 counterexample: a call that supplies both the Language instance and
the raw language id is not rejected — it succeeds, using the instance and
never reading the store (the id 42 and the Language do not even exist in
the empty store). -/
theorem claim_C2_counterexample :
    update_user_language initState
      { session := { language_name := none }, active_language := none }
      (some { id := 7, name := "French", iso2 := "FR", iso3 := "FRA",
              django_language_name := "fr-FR" })
      (some 42) =
      .ok { session := { language_name := some "fr-FR" },
            active_language := some "fr-FR" } := by decide

/-- C2 (amended): `update_user_language` rejects the call with a
`TypeError` before any store access only when *neither* mutually-exclusive
parameter is supplied; when *both* are supplied the call is not rejected:
it proceeds exactly as if only the Language instance had been passed,
ignoring the raw id, in every store state. -/
theorem claim_C2_amended :
    (∀ (s : DBState) (req : Request),
      update_user_language s req none none = .error .typeError) ∧
    (∀ (s : DBState) (req : Request) (l : Language) (lid : Nat),
      update_user_language s req (some l) (some lid) =
        .ok { req with active_language := some l.django_language_name,
                       session := { language_name := some l.django_language_name } } ∧
      update_user_language s req (some l) (some lid) =
        update_user_language s req (some l) none) :=
  ⟨fun s req => rfl, fun s req l lid => ⟨rfl, rfl⟩⟩

/-- C3: in every reachable store, for every Item and Language that exist
simultaneously there is exactly one Translation row for the pair, and
every Translation row for the pair has empty text. -/
theorem claim_C3 (s : DBState) (hs : Reachable s) :
    ∀ i ∈ s.items, ∀ l ∈ s.languages,
      cnt s.translations (pairKey l.id i.id) = 1 ∧
      ∀ t ∈ s.translations, pairKey l.id i.id t = true → t.text = "" := by
  have hwf := reachable_wf hs
  intro i hi l hl
  exact ⟨hwf.complete i hi l hl, fun t ht _ => hwf.trans_text t ht⟩

theorem claim_C3_witness :
    cnt sW3.translations (pairKey 1 1) = 1 ∧
    ∀ t ∈ sW3.translations, pairKey 1 1 t = true → t.text = "" :=
  claim_C3 sW3 sW3_reach
    { id := 1, field := 1, object_id := 1, content_type := 1 } (by decide)
    { id := 1, name := "English", iso2 := "EN", iso3 := "ENG",
      django_language_name := "en-US" } (by decide)

/-- C4: when a Field is successfully created on a reachable store, then
for every record of the Field's kind existing at that moment exactly one
Item for (field, record) exists afterwards, and the record's attribute
named after the Field holds that Item's id. -/
theorem claim_C4 (s : DBState) (ct : Nat) (name : String) (f : Field) (s' : DBState)
    (hs : Reachable s) (h : Field_objects_create s ct name = .ok (f, s')) :
    ∀ r ∈ s.records, r.content_type = ct →
      cnt s'.items (itemKey f.id r.id) = 1 ∧
      ∃ i ∈ s'.items, i.field = f.id ∧ i.object_id = r.id ∧
        ∃ r' ∈ s'.records, r'.id = r.id ∧ getAttr r'.attrs f.name = some i.id := by
  have hwf := reachable_wf hs
  obtain ⟨hwf', hfeq, hfmem, hl, hfl, hcnt1, hnewI, hrecs⟩ :=
    Field_objects_create_spec s ct name f s' hwf h
  intro r hrmem hrct
  have h1 := hcnt1 r hrmem hrct
  refine ⟨h1, ?_⟩
  obtain ⟨i, hi, hik⟩ := mem_of_cnt_pos (show 0 < cnt s'.items (itemKey f.id r.id) by omega)
  have hif : i.field = f.id ∧ i.object_id = r.id := by
    simpa [itemKey, Bool.and_eq_true, beq_iff_eq] using hik
  obtain ⟨r', hr', hr'id, hr'ct⟩ := mem_shape_transport hrecs hrmem
  refine ⟨i, hi, hif.1, hif.2, r', hr', hr'id, ?_⟩
  exact hwf'.ptr i hi f hfmem hif.1.symm r' hr' (by rw [hr'id]; exact hif.2.symm)

theorem claim_C4_witness :
    cnt sW4.items (itemKey fW4.id 1) = 1 ∧
    ∃ i ∈ sW4.items, i.field = fW4.id ∧ i.object_id = 1 ∧
      ∃ r' ∈ sW4.records, r'.id = 1 ∧ getAttr r'.attrs fW4.name = some i.id :=
  claim_C4 sW3 1 "subtitle" fW4 sW4 sW3_reach (by decide)
    { id := 1, content_type := 1, attrs := [("title", 1)] } (by decide) (by decide)

/-- C5: on a reachable store, creating a record of a kind with zero
registered Fields fails with the `RuntimeError` configuration error at
that creation attempt; with at least one registered Field, exactly one
Item per registered Field of the kind is created and its id written onto
the record's attribute named after the Field. -/
theorem claim_C5 (s : DBState) (ct : Nat) (hs : Reachable s) :
    (cnt s.fields (fun f => f.content_type == ct) = 0 →
      Record_objects_create s ct = .error .runtimeError) ∧
    (∀ (r : Record) (s' : DBState), Record_objects_create s ct = .ok (r, s') →
      ∀ f ∈ s.fields, f.content_type = ct →
        cnt s'.items (itemKey f.id r.id) = 1 ∧
        ∃ i ∈ s'.items, i.field = f.id ∧ i.object_id = r.id ∧
          ∃ r' ∈ s'.records, r'.id = r.id ∧ getAttr r'.attrs f.name = some i.id) := by
  have hwf := reachable_wf hs
  refine ⟨fun h0 => Record_objects_create_err s ct h0, ?_⟩
  intro r s' h f hf hct
  obtain ⟨hwf', hreq, hl, hfl, hcnt1, hrex⟩ := Record_objects_create_spec s ct r s' hwf h
  have h1 := hcnt1 f hf hct
  refine ⟨h1, ?_⟩
  obtain ⟨i, hi, hik⟩ := mem_of_cnt_pos (show 0 < cnt s'.items (itemKey f.id r.id) by omega)
  have hif : i.field = f.id ∧ i.object_id = r.id := by
    simpa [itemKey, Bool.and_eq_true, beq_iff_eq] using hik
  obtain ⟨r', hr', hr'id, hr'ct⟩ := hrex
  refine ⟨i, hi, hif.1, hif.2, r', hr', hr'id, ?_⟩
  exact hwf'.ptr i hi f (by rw [hfl]; exact hf) hif.1.symm r' hr'
    (by rw [hr'id]; exact hif.2.symm)

theorem claim_C5_witness :
    Record_objects_create initState 1 = .error .runtimeError ∧
    (cnt sW3.items (itemKey 1 1) = 1 ∧
      ∃ i ∈ sW3.items, i.field = 1 ∧ i.object_id = 1 ∧
        ∃ r' ∈ sW3.records, r'.id = 1 ∧ getAttr r'.attrs "title" = some i.id) :=
  ⟨(claim_C5 initState 1 Reachable.init).1 (by decide),
   (claim_C5 sW2 1 sW2_reach).2 { id := 1, content_type := 1, attrs := [] } sW3 (by decide)
     { id := 1, content_type := 1, name := "title" } (by decide) (by decide)⟩

/-- C6: deleting a record of a translatable kind from a reachable store
removes the record row, leaves no Item of that record, and leaves no
Translation referencing a missing Item. -/
theorem claim_C6 (s : DBState) (r : Record) (s' : DBState) (hs : Reachable s)
    (hr : r ∈ s.records) (h : step s (.deleteRecord r.id) = .ok s') :
    cnt s'.records (fun x => x.id == r.id) = 0 ∧
    cnt s'.items (fun i => i.object_id == r.id) = 0 ∧
    ∀ t ∈ s'.translations, ∃ i ∈ s'.items, i.id = t.item := by
  have hwf := reachable_wf hs
  rw [step] at h
  cases hfind : s.records.find? (fun x => x.id == r.id) with
  | none =>
      rw [hfind] at h
      cases h
  | some r0 =>
      rw [hfind] at h
      injection h with h2
      subst h2
      have hr0mem := List.mem_of_find?_eq_some hfind
      have hr0p := List.find?_some hfind
      have hrr : r0 = r :=
        eq_of_cnt_le_one (hwf.record_id r.id) hr0mem hr0p hr (by simp)
      subst hrr
      obtain ⟨hwfd, h1, h2⟩ := Record_delete_spec s r0 hwf hr
      exact ⟨h1, h2, hwfd.trans_item⟩

theorem claim_C6_witness :
    cnt sW5.records (fun x => x.id == 1) = 0 ∧
    cnt sW5.items (fun i => i.object_id == 1) = 0 ∧
    ∀ t ∈ sW5.translations, ∃ i ∈ sW5.items, i.id = t.item :=
  claim_C6 sW3 { id := 1, content_type := 1, attrs := [("title", 1)] } sW5 sW3_reach
    (by decide) (by decide)

/-- C7: re-triggering the creation fan-out for an already-synchronized
pair never duplicates a row: every save event with `created=False` is a
no-op for all four callbacks, an `Item.objects.create` for an existing
(field, object_id) pair is rejected by the uniqueness constraint, and a
Translation bulk insert containing an existing (language, item) pair is
rejected by the uniqueness constraint. -/
theorem claim_C7 :
    (∀ (s : DBState) (f : Field) (i : Item) (l : Language) (r : Record),
      create_items_from_field s f false = .ok s ∧
      create_translations_from_item s i false = .ok s ∧
      create_translations_from_language s l false = .ok s ∧
      create_translated_items s r false = .ok s) ∧
    (∀ (s : DBState) (fid oid ct : Nat), 0 < cnt s.items (itemKey fid oid) →
      Item_objects_create s fid oid ct = .error .integrityError) ∧
    (∀ (s : DBState) (objs : List (Nat × Nat)) (lid iid : Nat),
      (lid, iid) ∈ objs → 0 < cnt s.translations (pairKey lid iid) →
      Translation_objects_bulk_create s objs = .error .integrityError) := by
  refine ⟨fun s f i l r => ⟨rfl, rfl, rfl, rfl⟩, ?_, ?_⟩
  · intro s fid oid ct hpos
    have hany : (s.items.any (fun i => i.field == fid && i.object_id == oid)) = true := by
      obtain ⟨i, hi, hik⟩ := mem_of_cnt_pos hpos
      exact List.any_eq_true.mpr ⟨i, hi, hik⟩
    rw [Item_objects_create, if_pos hany]
  · intro s objs lid iid hmem hpos
    have hany : (objs.any (fun p => s.translations.any
        (fun t => t.language == p.1 && t.item == p.2))) = true := by
      apply List.any_eq_true.mpr
      refine ⟨(lid, iid), hmem, ?_⟩
      obtain ⟨t, ht, htp⟩ := mem_of_cnt_pos hpos
      exact List.any_eq_true.mpr ⟨t, ht, by simpa [pairKey] using htp⟩
    rw [Translation_objects_bulk_create, hany]
    simp only [Bool.true_or, if_true]

theorem claim_C7_witness :
    Item_objects_create sW3 1 1 1 = .error .integrityError ∧
    Translation_objects_bulk_create sW3 [(1, 1)] = .error .integrityError ∧
    create_items_from_field sW3 { id := 1, content_type := 1, name := "title" } false =
      .ok sW3 :=
  ⟨claim_C7.2.1 sW3 1 1 1 (by decide),
   claim_C7.2.2 sW3 [(1, 1)] 1 1 (by decide) (by decide),
   (claim_C7.1 sW3 { id := 1, content_type := 1, name := "title" }
     { id := 1, field := 1, object_id := 1, content_type := 1 }
     { id := 1, name := "English", iso2 := "EN", iso3 := "ENG",
       django_language_name := "en-US" }
     { id := 1, content_type := 1, attrs := [("title", 1)] }).1⟩

/-- C8: the defaulting lookup `get_translation` returns the stored text
when the Translation row for (language, item id) exists, and returns the
empty string without raising when no row exists — while the strict
accessor `Translation.objects.get` fails with `DoesNotExist` there. -/
theorem claim_C8 (s : DBState) (language : Language) (item_id : Nat) :
    (∀ entry, s.translations.filter
        (fun t => t.language == language.id && t.item == item_id) = [entry] →
      get_translation s language item_id = .ok entry.text) ∧
    (s.translations.filter (fun t => t.language == language.id && t.item == item_id) = [] →
      get_translation s language item_id = .ok "" ∧
      Translation_objects_get s language.id item_id = .error .doesNotExist) := by
  constructor
  · intro entry hone
    rw [get_translation, Translation_objects_get, hone]
  · intro hnone
    constructor
    · rw [get_translation, Translation_objects_get, hnone]
    · rw [Translation_objects_get, hnone]

theorem claim_C8_witness :
    get_translation sW3
      { id := 1, name := "English", iso2 := "EN", iso3 := "ENG",
        django_language_name := "en-US" } 1 = .ok "" ∧
    get_translation sW3
      { id := 1, name := "English", iso2 := "EN", iso3 := "ENG",
        django_language_name := "en-US" } 99 = .ok "" ∧
    Translation_objects_get sW3 1 99 = .error .doesNotExist := by
  refine ⟨?_, ?_, ?_⟩
  · exact (claim_C8 sW3
      { id := 1, name := "English", iso2 := "EN", iso3 := "ENG",
        django_language_name := "en-US" } 1).1
      { id := 1, language := 1, item := 1, text := "" } (by decide)
  · exact ((claim_C8 sW3
      { id := 1, name := "English", iso2 := "EN", iso3 := "ENG",
        django_language_name := "en-US" } 99).2 (by decide)).1
  · exact ((claim_C8 sW3
      { id := 1, name := "English", iso2 := "EN", iso3 := "ENG",
        django_language_name := "en-US" } 99).2 (by decide)).2

/-- C9: for every successful Language save, the stored row carries the
uppercase of the supplied ISO codes and the other supplied attributes
unchanged, and the row is in the store. -/
theorem claim_C9 (s : DBState) (d : LanguageData) (lang : Language) (s' : DBState)
    (h : Language_save s d = .ok (lang, s')) :
    lang.iso2 = pyUpper d.iso2 ∧ lang.iso3 = pyUpper d.iso3 ∧
    lang.name = d.name ∧ lang.django_language_name = d.django_language_name ∧
    lang ∈ s'.languages := by
  rw [Language_save] at h
  by_cases hany : (s.languages.any (fun l => l.name == d.name || l.iso2 == pyUpper d.iso2 ||
      l.iso3 == pyUpper d.iso3 || l.django_language_name == d.django_language_name)) = true
  · rw [if_pos hany] at h
    cases h
  · simp only [if_neg hany] at h
    cases hcl : create_translations_from_language
        { s with
            languages := s.languages ++
              [{ id := s.nextLanguageId, name := d.name, iso2 := pyUpper d.iso2,
                 iso3 := pyUpper d.iso3, django_language_name := d.django_language_name }],
            nextLanguageId := s.nextLanguageId + 1 }
        { id := s.nextLanguageId, name := d.name, iso2 := pyUpper d.iso2,
          iso3 := pyUpper d.iso3, django_language_name := d.django_language_name }
        true with
    | error e =>
        rw [hcl] at h
        cases h
    | ok s2 =>
        rw [hcl] at h
        injection h with h2
        injection h2 with hlg hs
        subst hlg
        subst hs
        refine ⟨rfl, rfl, rfl, rfl, ?_⟩
        rw [create_translations_from_language_ok hcl]
        exact List.mem_append_right _ (List.mem_singleton_self _)

theorem claim_C9_witness :
    frLang.iso2 = pyUpper frData.iso2 ∧ frLang.iso3 = pyUpper frData.iso3 ∧
    frLang.name = frData.name ∧ frLang.django_language_name = frData.django_language_name ∧
    frLang ∈ sWF.languages ∧ frLang.iso2 = "FR" ∧ frLang.iso3 = "FRA" := by
  have h := claim_C9 initState frData frLang sWF (by decide)
  exact ⟨h.1, h.2.1, h.2.2.1, h.2.2.2.1, h.2.2.2.2, by decide, by decide⟩

/-- C10: the `db_trans` template tag returns any non-Item argument
unchanged with a result independent of the store, and for an Item argument
it returns the Translation text of the session's active language. -/
theorem claim_C10 (s : DBState) (context : Request) (v : TemplateValue) :
    ((∀ it : Item, v ≠ .item it) →
      db_trans s context v = .ok v ∧
      ∀ s2 : DBState, db_trans s2 context v = db_trans s context v) ∧
    (∀ (it : Item) (ln : String) (language : Language) (entry : Translation),
      v = .item it →
      context.session.language_name = some ln →
      s.languages.filter (fun l => l.django_language_name == ln) = [language] →
      s.translations.filter (fun t => t.language == language.id && t.item == it.id) =
        [entry] →
      db_trans s context v = .ok (.str entry.text)) := by
  constructor
  · intro hni
    cases v with
    | item it => exact absurd rfl (hni it)
    | str a => exact ⟨rfl, fun s2 => rfl⟩
    | num n => exact ⟨rfl, fun s2 => rfl⟩
  · intro it ln language entry hv hln hlang htr
    subst hv
    simp only [db_trans, hln, Language_objects_get_by_django_name, hlang,
        Translation_objects_get, htr]

theorem claim_C10_witness :
    db_trans sW3 { session := { language_name := some "en-US" }, active_language := none }
      (.str "hello") = .ok (.str "hello") ∧
    db_trans initState { session := { language_name := some "en-US" }, active_language := none }
      (.str "hello") =
      db_trans sW3 { session := { language_name := some "en-US" }, active_language := none }
        (.str "hello") ∧
    db_trans sW3 { session := { language_name := some "en-US" }, active_language := none }
      (.item { id := 1, field := 1, object_id := 1, content_type := 1 }) = .ok (.str "") := by
  have h1 := (claim_C10 sW3
    { session := { language_name := some "en-US" }, active_language := none }
    (.str "hello")).1 (fun it hc => by cases hc)
  have h2 := (claim_C10 sW3
    { session := { language_name := some "en-US" }, active_language := none }
    (.item { id := 1, field := 1, object_id := 1, content_type := 1 })).2
    { id := 1, field := 1, object_id := 1, content_type := 1 } "en-US"
    { id := 1, name := "English", iso2 := "EN", iso3 := "ENG",
      django_language_name := "en-US" }
    { id := 1, language := 1, item := 1, text := "" }
    rfl rfl (by decide) (by decide)
  exact ⟨h1.1, h1.2 initState, h2⟩

end DDT
